import Mathlib

/-!
Verification development for the `happy-eyeballs` crate (Happy Eyeballs v3
state machine, `src/lib.rs` and `src/id.rs`).

The Rust code is shallowly embedded:
* `Instant` and `Duration` become `Nat` (milliseconds; `Instant.duration_since`
  saturates at zero, like Rust's, so it is `Nat` subtraction);
* `u64` id arithmetic keeps the `% 2^64` wrap of `IdGenerator::next_id`;
* `Result<T, E>` payloads of DNS answers become `Option` (`none` = `Err`);
* `HashSet<Protocol>` is represented by the list of its inserted elements
  (only membership and emptiness of the set are observed by the code, so the
  list content determines the set content);
* `HashSet<ConnectionAttemptProtocols>` produced by `from_protocols` is
  represented by the list built in the code's insertion order.  The only place
  the code observes the *iteration order* of that set is
  `next_endpoint_to_attempt`'s `protocols.iter().next()` for IP-literal hosts;
  since `std::collections::HashSet` iteration order is unspecified, that
  selection is modelled by an arbitrary `pick` function constrained by
  `ValidPick` (it must return `none` exactly on the empty set and may only
  return a member);
* `debug_assert!` is a no-op (release semantics); the two `todo!()` branches
  of `got_dns_aaaa_response` / `got_dns_a_response` are modelled by the
  `Except Unit` variants (`.error ()` = panic).
-/

namespace HappyEyeballsModel

/-- `RESOLUTION_DELAY`, in milliseconds (source: `lib.rs`, 50 ms). -/
def RESOLUTION_DELAY : Nat := 50

/-- `CONNECTION_ATTEMPT_DELAY`, in milliseconds (source: `lib.rs`, 250 ms). -/
def CONNECTION_ATTEMPT_DELAY : Nat := 250

/-- Opaque ECH configuration bytes (`Vec<u8>`). -/
abbrev Bytes := List Nat

/-- `Protocol` (HTTP version) from `lib.rs`. -/
inductive Protocol where
  | h3
  | h2
  | h1
deriving DecidableEq, Repr

/-- `ConnectionAttemptProtocols` from `lib.rs`.  The derived Rust `Ord` is
declaration order: `H3 < H2OrH1 < H2 < H1`. -/
inductive ConnectionAttemptProtocols where
  | h3
  | h2OrH1
  | h2
  | h1
deriving DecidableEq, Repr

/-- Rank of a `ConnectionAttemptProtocols` value in the derived Rust `Ord`
(declaration order). -/
def ConnectionAttemptProtocols.toNat : ConnectionAttemptProtocols → Nat
  | .h3 => 0
  | .h2OrH1 => 1
  | .h2 => 2
  | .h1 => 3

/-- `ConnectionAttemptProtocols::from_protocols`: collapses a set of
`Protocol`s (given by its three membership bits, the only thing the function
observes) into connection-attempt protocol combinations.  The list is in the
code's insertion order: `H3` first, then the TCP combination. -/
def ConnectionAttemptProtocols.from_protocols (h3 h2 h1 : Bool) :
    List ConnectionAttemptProtocols :=
  (if h3 then [ConnectionAttemptProtocols.h3] else []) ++
  (if h2 && h1 then [ConnectionAttemptProtocols.h2OrH1]
   else if h2 then [ConnectionAttemptProtocols.h2]
   else if h1 then [ConnectionAttemptProtocols.h1]
   else [])

/-- `DnsRecordType` from `lib.rs`. -/
inductive DnsRecordType where
  | https
  | aaaa
  | a
deriving DecidableEq, Repr

/-- `IpAddr`: v4/v6 addresses, each abstracted to an opaque `Nat`. -/
inductive IpAddr where
  | v4 (addr : Nat)
  | v6 (addr : Nat)
deriving DecidableEq, Repr

/-- `IpAddr::is_ipv6`. -/
def IpAddr.is_ipv6 : IpAddr → Bool
  | .v4 _ => false
  | .v6 _ => true

/-- `SocketAddr`: ip plus port. -/
structure SocketAddr where
  ip : IpAddr
  port : Nat
deriving DecidableEq, Repr

/-- `ServiceInfo` from `lib.rs` (one parsed SVCB/HTTPS record).
`alpn_protocols` lists the elements of the record's `HashSet<Protocol>`. -/
structure ServiceInfo where
  priority : Nat
  target_name : String
  alpn_protocols : List Protocol
  ech_config : Option Bytes
  ipv4_hints : List Nat
  ipv6_hints : List Nat
deriving DecidableEq, Repr

/-- `DnsResult` from `lib.rs`; `Option` models `Result<_, ()>`. -/
inductive DnsResult where
  | https (r : Option (List ServiceInfo))
  | aaaa (r : Option (List Nat))
  | a (r : Option (List Nat))
deriving DecidableEq, Repr

/-- `DnsResult::record_type`. -/
def DnsResult.record_type : DnsResult → DnsRecordType
  | .https _ => .https
  | .aaaa _ => .aaaa
  | .a _ => .a

/-- `DnsResult::positive` (`is_ok`). -/
def DnsResult.positive : DnsResult → Bool
  | .https r => r.isSome
  | .aaaa r => r.isSome
  | .a r => r.isSome

/-- `Endpoint` from `lib.rs`. -/
structure Endpoint where
  address : SocketAddr
  protocol : ConnectionAttemptProtocols
  ech_config : Option Bytes
deriving DecidableEq, Repr

/-- `ConnectionState` from `lib.rs`. -/
inductive ConnectionState where
  | inProgress
  | succeeded
  | failed
deriving DecidableEq, Repr

/-- `ConnectionAttempt` from `lib.rs`. -/
structure ConnectionAttempt where
  id : Nat
  endpoint : Endpoint
  started : Nat
  state : ConnectionState
deriving DecidableEq, Repr

/-- `ConnectionAttempt::within_delay` (with saturating `duration_since`). -/
def ConnectionAttempt.within_delay (a : ConnectionAttempt) (now : Nat) : Bool :=
  now - a.started < CONNECTION_ATTEMPT_DELAY

/-- `DnsQuery` from `lib.rs`. -/
inductive DnsQuery where
  | in_progress (id : Nat) (target_name : String) (record_type : DnsRecordType)
  | completed (id : Nat) (target_name : String) (completed_at : Nat) (response : DnsResult)
deriving DecidableEq, Repr

/-- `DnsQuery::id`. -/
def DnsQuery.qid : DnsQuery → Nat
  | .in_progress i _ _ => i
  | .completed i _ _ _ => i

/-- `DnsQuery::record_type` (for completed queries, derived from the response,
as in the source). -/
def DnsQuery.record_type : DnsQuery → DnsRecordType
  | .in_progress _ _ t => t
  | .completed _ _ _ r => r.record_type

/-- `DnsQuery::target_name`. -/
def DnsQuery.target_name : DnsQuery → String
  | .in_progress _ t _ => t
  | .completed _ t _ _ => t

/-- `DnsQuery::get_response`. -/
def DnsQuery.get_response : DnsQuery → Option DnsResult
  | .in_progress _ _ _ => none
  | .completed _ _ _ r => some r

/-- Whether a query is `InProgress` (the `matches!` used throughout `lib.rs`). -/
def DnsQuery.is_in_progress : DnsQuery → Bool
  | .in_progress _ _ _ => true
  | .completed _ _ _ _ => false

/-- `HttpVersions` from `lib.rs`. -/
structure HttpVersions where
  h1 : Bool
  h2 : Bool
  h3 : Bool
deriving DecidableEq, Repr

/-- `HttpVersions::default` (all enabled). -/
def HttpVersions.default : HttpVersions := ⟨true, true, true⟩

/-- `IpPreference` from `lib.rs`. -/
inductive IpPreference where
  | dualStackPreferV6
  | dualStackPreferV4
  | ipv6Only
  | ipv4Only
deriving DecidableEq, Repr

/-- `AltSvc` from `lib.rs`. -/
structure AltSvc where
  host : Option String
  port : Option Nat
  protocol : Protocol
deriving DecidableEq, Repr

/-- `NetworkConfig` from `lib.rs`. -/
structure NetworkConfig where
  http_versions : HttpVersions
  ip : IpPreference
  alt_svc : List AltSvc
deriving DecidableEq, Repr

/-- `NetworkConfig::default`. -/
def NetworkConfig.default : NetworkConfig :=
  ⟨HttpVersions.default, .dualStackPreferV6, []⟩

/-- `NetworkConfig::prefer_v6`. -/
def NetworkConfig.prefer_v6 (c : NetworkConfig) : Bool :=
  match c.ip with
  | .dualStackPreferV6 | .ipv6Only => true
  | .dualStackPreferV4 | .ipv4Only => false

/-- `NetworkConfig::preferred_dns_record_type`. -/
def NetworkConfig.preferred_dns_record_type (c : NetworkConfig) : DnsRecordType :=
  match c.ip with
  | .dualStackPreferV6 | .ipv6Only => .aaaa
  | .dualStackPreferV4 | .ipv4Only => .a

/-- `url::Host` after parsing: a domain or an IP literal. -/
inductive Host where
  | domain (d : String)
  | ipv4 (addr : Nat)
  | ipv6 (addr : Nat)
deriving DecidableEq, Repr

/-- Comparison of two `Bool`s with `false < true` (Rust's `bool: Ord`). -/
def boolCmp (a b : Bool) : Ordering :=
  if a = b then .eq else if b then .lt else .gt

/-- `Endpoint::sort_with_config`: protocol rank first (derived `Ord`),
then address family, reversed when IPv6 is preferred. -/
def Endpoint.sort_with_config (a b : Endpoint) (c : NetworkConfig) : Ordering :=
  if a.protocol ≠ b.protocol then
    compare a.protocol.toNat b.protocol.toNat
  else
    let ord := boolCmp a.address.ip.is_ipv6 b.address.ip.is_ipv6
    if c.prefer_v6 then ord.swap else ord

/-- Insert `a` before the first element `b` with `cmp a b ≠ gt`
(the insertion step of a stable insertion sort). -/
def insertSorted (cmp : α → α → Ordering) (a : α) : List α → List α
  | [] => [a]
  | b :: l => if cmp a b = Ordering.gt then b :: insertSorted cmp a l else a :: b :: l

/-- Stable insertion sort, modelling `Vec::sort_by` (stable) for the total
preorder comparators used in the source. -/
def sortStable (cmp : α → α → Ordering) : List α → List α
  | [] => []
  | a :: l => insertSorted cmp a (sortStable cmp l)

/-- `ServiceInfo::flatten_into_endpoints`: v6 hints then v4 hints, each kept
only while the corresponding positive address answer is missing, combined with
the record's own ALPN set (collapsed) and the record's own ECH config. -/
def ServiceInfo.flatten_into_endpoints (info : ServiceInfo) (port : Nat)
    (got_a got_aaaa : Bool) : List Endpoint :=
  (((info.ipv6_hints.map IpAddr.v6) ++ (info.ipv4_hints.map IpAddr.v4)).filter
      (fun ip => match ip with
        | .v6 _ => !got_aaaa
        | .v4 _ => !got_a)).flatMap
    (fun ip =>
      (ConnectionAttemptProtocols.from_protocols
          (info.alpn_protocols.contains .h3)
          (info.alpn_protocols.contains .h2)
          (info.alpn_protocols.contains .h1)).map
        (fun p => { address := ⟨ip, port⟩, protocol := p, ech_config := info.ech_config }))

/-- `DnsResult::flatten_into_endpoints`: HTTPS answers delegate to the
per-record `ServiceInfo::flatten_into_endpoints` (ignoring the `protocols` and
`ech_config` arguments), AAAA/A answers combine each address with every
protocol in `protocols` and the given `ech_config`. -/
def DnsResult.flatten_into_endpoints (r : DnsResult) (port : Nat)
    (got_a got_aaaa : Bool) (protocols : List ConnectionAttemptProtocols)
    (ech_config : Option Bytes) : List Endpoint :=
  match r with
  | .https (some infos) =>
    infos.flatMap (fun info => info.flatten_into_endpoints port got_a got_aaaa)
  | .https none => []
  | .aaaa (some addrs) =>
    addrs.flatMap (fun ip =>
      protocols.map (fun p =>
        { address := ⟨IpAddr.v6 ip, port⟩, protocol := p, ech_config := ech_config }))
  | .aaaa none => []
  | .a (some addrs) =>
    addrs.flatMap (fun ip =>
      protocols.map (fun p =>
        { address := ⟨IpAddr.v4 ip, port⟩, protocol := p, ech_config := ech_config }))
  | .a none => []

/-- State of `HappyEyeballs` (with the `IdGenerator`'s counter inlined as
`id_next`). -/
structure State where
  id_next : Nat
  dns_queries : List DnsQuery
  connection_attempts : List ConnectionAttempt
  network_config : NetworkConfig
  host : Host
  port : Nat
deriving DecidableEq, Repr

/-- `IdGenerator::next_id`: returns the counter and wraps it at `2^64`. -/
def State.next_id (s : State) : Nat × State :=
  (s.id_next, { s with id_next := (s.id_next + 1) % 2 ^ 64 })

/-- `HappyEyeballs::new_with_network_config` after host parsing: fresh ledgers
and a zeroed id counter. -/
def mkState (host : Host) (port : Nat) (cfg : NetworkConfig) : State :=
  { id_next := 0
    dns_queries := []
    connection_attempts := []
    network_config := cfg
    host := host
    port := port }

/-- Connection result payload (`Result<(), String>`). -/
inductive ConnResult where
  | ok
  | err (msg : String)
deriving DecidableEq, Repr

/-- `Input` events from `lib.rs`. -/
inductive Input where
  | dnsResult (id : Nat) (result : DnsResult)
  | connectionResult (id : Nat) (result : ConnResult)
deriving DecidableEq, Repr

/-- `Output` events from `lib.rs`. -/
inductive Output where
  | sendDnsQuery (id : Nat) (hostname : String) (record_type : DnsRecordType)
  | timer (duration : Nat)
  | attemptConnection (id : Nat) (endpoint : Endpoint)
  | cancelConnection (addr : SocketAddr)
  | succeeded
  | failed
deriving DecidableEq, Repr

/-- `HappyEyeballs::has_successful_connection`. -/
def State.has_successful_connection (s : State) : Bool :=
  s.connection_attempts.any (fun a => decide (a.state = .succeeded))

/-- `HappyEyeballs::has_pending_queries`. -/
def State.has_pending_queries (s : State) : Bool :=
  s.dns_queries.any (fun q => q.is_in_progress)

/-- `HappyEyeballs::has_pending_connections`. -/
def State.has_pending_connections (s : State) : Bool :=
  s.connection_attempts.any (fun a => decide (a.state = .inProgress))

/-- Replace the first query with the given id by its completed form; used by
`on_dns_response`.  An unknown id or an already completed query leaves the
list unchanged (the `debug_assert!`s are release no-ops). -/
def updateQueries (id : Nat) (response : DnsResult) (now : Nat) :
    List DnsQuery → List DnsQuery
  | [] => []
  | q :: rest =>
    if q.qid = id then
      match q with
      | .in_progress _ target _ => DnsQuery.completed id target now response :: rest
      | .completed _ _ _ _ => q :: rest
    else q :: updateQueries id response now rest

/-- `HappyEyeballs::on_dns_response`. -/
def State.on_dns_response (s : State) (id : Nat) (response : DnsResult) (now : Nat) : State :=
  { s with dns_queries := updateQueries id response now s.dns_queries }

/-- Overwrite the state of the first attempt with the given id; used by
`on_connection_result`.  Note the source sets the new state even when the
attempt is not `InProgress` (the `debug_assert_eq!` is a release no-op). -/
def updateAttempts (id : Nat) (newState : ConnectionState) :
    List ConnectionAttempt → List ConnectionAttempt
  | [] => []
  | a :: rest =>
    if a.id = id then { a with state := newState } :: rest
    else a :: updateAttempts id newState rest

/-- `HappyEyeballs::on_connection_result`. -/
def State.on_connection_result (s : State) (id : Nat) (result : ConnResult) : State :=
  match result with
  | .ok => { s with connection_attempts := updateAttempts id .succeeded s.connection_attempts }
  | .err _ => { s with connection_attempts := updateAttempts id .failed s.connection_attempts }

/-- `HappyEyeballs::process_input`. -/
def State.process_input (s : State) (i : Input) (now : Nat) : State :=
  match i with
  | .dnsResult id result => s.on_dns_response id result now
  | .connectionResult id result => s.on_connection_result id result

/-- Mark the first `InProgress` attempt as `Failed` and return its address,
or `none` when no attempt is in progress (the mutating find of
`cancel_remaining_attempts`). -/
def cancelFirstInProgress :
    List ConnectionAttempt → Option (List ConnectionAttempt × SocketAddr)
  | [] => none
  | a :: rest =>
    if a.state = .inProgress then
      some ({ a with state := .failed } :: rest, a.endpoint.address)
    else
      (cancelFirstInProgress rest).map (fun (l, addr) => (a :: l, addr))

/-- `HappyEyeballs::cancel_remaining_attempts`. -/
def State.cancel_remaining_attempts (s : State) : State × Option Output :=
  if s.has_successful_connection then
    match cancelFirstInProgress s.connection_attempts with
    | some (l, addr) =>
      ({ s with connection_attempts := l }, some (.cancelConnection addr))
    | none => (s, some .succeeded)
  else (s, none)

/-- The loop body of `send_dns_request`: first record type in the list with no
ledger entry gets an `InProgress` query and a `SendDnsQuery` output. -/
def sendDnsLoop (s : State) (target : String) :
    List DnsRecordType → State × Option Output
  | [] => (s, none)
  | t :: rest =>
    if s.dns_queries.any (fun q => decide (q.record_type = t)) then
      sendDnsLoop s target rest
    else
      let (id, s') := s.next_id
      ({ s' with dns_queries := s'.dns_queries ++ [DnsQuery.in_progress id target t] },
        some (.sendDnsQuery id target t))

/-- `HappyEyeballs::send_dns_request`: nothing for IP hosts, else the first
missing record type among HTTPS, AAAA, A for the primary target. -/
def State.send_dns_request (s : State) : State × Option Output :=
  match s.host with
  | .ipv4 _ | .ipv6 _ => (s, none)
  | .domain d => sendDnsLoop s d [.https, .aaaa, .a]

/-- Inner loop of `send_dns_request_for_target_name`: the first of AAAA, A
missing for the given discovered target name. -/
def sendForName (s : State) (tn : String) :
    List DnsRecordType → Option (State × Output)
  | [] => none
  | t :: rest =>
    if s.dns_queries.any (fun q => decide (q.target_name = tn) && decide (q.record_type = t)) then
      sendForName s tn rest
    else
      let (id, s') := s.next_id
      some ({ s' with dns_queries := s'.dns_queries ++ [DnsQuery.in_progress id tn t] },
        .sendDnsQuery id tn t)

/-- Outer loop of `send_dns_request_for_target_name` over discovered names. -/
def sendForNames (s : State) : List String → State × Option Output
  | [] => (s, none)
  | tn :: rest =>
    match sendForName s tn [.aaaa, .a] with
    | some (s', o) => (s', some o)
    | none => sendForNames s rest

/-- `HappyEyeballs::send_dns_request_for_target_name`: AAAA/A queries for
target names discovered in completed positive HTTPS responses. -/
def State.send_dns_request_for_target_name (s : State) : State × Option Output :=
  sendForNames s
    ((s.dns_queries.filterMap (fun q =>
        match q with
        | .completed _ _ _ (.https (some infos)) => some (infos.map (·.target_name))
        | _ => none)).flatten)

/-- The flattened ALPN protocols of all completed positive HTTPS responses
(content of the `HashSet<Protocol>` built by `connection_attempt_protocols`
before seeding). -/
def State.collectedAlpn (s : State) : List Protocol :=
  s.dns_queries.flatMap (fun q =>
    match q with
    | .completed _ _ _ (.https (some infos)) => infos.flatMap (·.alpn_protocols)
    | _ => [])

/-- Membership in the `HashSet<Protocol>` of `connection_attempt_protocols`
after seeding with `{H2, H1}` (when no ALPN was observed), adding alt-svc
protocols, and masking by `HttpVersions`. -/
def State.protocolMember (s : State) (p : Protocol) : Bool :=
  let collected := s.collectedAlpn
  let base := if collected.isEmpty then decide (p = .h2) || decide (p = .h1)
              else collected.contains p
  let withAlt := base || s.network_config.alt_svc.any (fun a => decide (a.protocol = p))
  let allowed := match p with
    | .h3 => s.network_config.http_versions.h3
    | .h2 => s.network_config.http_versions.h2
    | .h1 => s.network_config.http_versions.h1
  withAlt && allowed

/-- `HappyEyeballs::connection_attempt_protocols` (the resulting
`HashSet<ConnectionAttemptProtocols>`, as the list built by
`from_protocols`). -/
def State.connection_attempt_protocols (s : State) : List ConnectionAttemptProtocols :=
  ConnectionAttemptProtocols.from_protocols
    (s.protocolMember .h3) (s.protocolMember .h2) (s.protocolMember .h1)

/-- `HappyEyeballs::ech_config`: for a domain host, the first `ech_config`
found scanning the ledger in order, restricted to completed positive HTTPS
queries whose target name is the primary host; `none` for IP hosts. -/
def State.ech_config (s : State) : Option Bytes :=
  match s.host with
  | .ipv4 _ | .ipv6 _ => none
  | .domain d =>
    s.dns_queries.findSome? (fun q =>
      ((match q with
        | .completed _ tn _ (.https (some infos)) => if tn = d then some infos else none
        | _ => none : Option (List ServiceInfo))).bind
        (fun infos => infos.findSome? (fun i => i.ech_config)))

/-- Core of `got_dns_aaaa_response` once the host is known to be the domain
`d`: a completed positive non-empty AAAA answer for the primary target. -/
def State.got_dns_aaaa_for (s : State) (d : String) : Bool :=
  s.dns_queries.any (fun q =>
    decide (q.target_name = d) &&
      match q with
      | .completed _ _ _ (.aaaa (some addrs)) => !addrs.isEmpty
      | _ => false)

/-- Core of `got_dns_a_response` for the domain `d`. -/
def State.got_dns_a_for (s : State) (d : String) : Bool :=
  s.dns_queries.any (fun q =>
    decide (q.target_name = d) &&
      match q with
      | .completed _ _ _ (.a (some addrs)) => !addrs.isEmpty
      | _ => false)

/-- `HappyEyeballs::got_dns_aaaa_response` with its `todo!()` branches made
explicit: `.error ()` models the panic for IP-literal hosts. -/
def State.got_dns_aaaa_responseE (s : State) : Except Unit Bool :=
  match s.host with
  | .domain d => .ok (s.got_dns_aaaa_for d)
  | .ipv4 _ | .ipv6 _ => .error ()

/-- `HappyEyeballs::got_dns_a_response` with its `todo!()` branches made
explicit. -/
def State.got_dns_a_responseE (s : State) : Except Unit Bool :=
  match s.host with
  | .domain d => .ok (s.got_dns_a_for d)
  | .ipv4 _ | .ipv6 _ => .error ()

/-- Selection type for `HashSet::iter().next()` on the protocol set. -/
abbrev PickFn := List ConnectionAttemptProtocols → Option ConnectionAttemptProtocols

/-- A `pick` function is a valid model of `HashSet::iter().next()` when it
returns an element of the set whenever it is non-empty, and `none` exactly on
the empty set. -/
def ValidPick (pick : PickFn) : Prop :=
  ∀ l, (∀ x, pick l = some x → x ∈ l) ∧ (pick l = none ↔ l = [])

/-- `HashSet` iteration starting at an arbitrary fixed element: the head of
the model's list. -/
def pickHead : PickFn := fun l => l.head?

/-- `HashSet` iteration starting at another arbitrary element: the last of
the model's list. -/
def pickLast : PickFn := fun l => l.getLast?

/-- Raw candidate list for a domain host (the `flat_map` of
`next_endpoint_to_attempt` before the already-attempted filter), given the
two `got_dns_*` flags. -/
def State.rawCandidates (s : State) (got_a got_aaaa : Bool) : List Endpoint :=
  (s.dns_queries.filterMap DnsQuery.get_response).flatMap (fun r =>
    r.flatten_into_endpoints s.port got_a got_aaaa
      s.connection_attempt_protocols s.ech_config)

/-- Candidate endpoints the planner builds for the current state (domain
hosts; IP-literal hosts never reach this code path). -/
def State.candidateEndpoints (s : State) : List Endpoint :=
  match s.host with
  | .domain d => s.rawCandidates (s.got_dns_a_for d) (s.got_dns_aaaa_for d)
  | .ipv4 _ | .ipv6 _ => []

/-- Filtering and sorting tail of `next_endpoint_to_attempt` for domain
hosts, applied to a raw candidate list. -/
def State.planFrom (s : State) (candidates : List Endpoint) : Option Endpoint :=
  (sortStable (fun a b => a.sort_with_config b s.network_config)
    (candidates.filter (fun ep =>
      !s.connection_attempts.any (fun a => decide (a.endpoint = ep))))).head?

/-- `HappyEyeballs::next_endpoint_to_attempt`.  For IP-literal hosts the
protocol is `HashSet::iter().next()`, modelled by `pick`; note there is no
already-attempted filter on that path. -/
def State.next_endpoint_to_attempt (pick : PickFn) (s : State) : Option Endpoint :=
  match s.host with
  | .ipv4 addr =>
    (pick s.connection_attempt_protocols).map (fun p =>
      { address := ⟨IpAddr.v4 addr, s.port⟩, protocol := p, ech_config := none })
  | .ipv6 addr =>
    (pick s.connection_attempt_protocols).map (fun p =>
      { address := ⟨IpAddr.v6 addr, s.port⟩, protocol := p, ech_config := none })
  | .domain d => s.planFrom (s.rawCandidates (s.got_dns_a_for d) (s.got_dns_aaaa_for d))

/-- `next_endpoint_to_attempt` with the `todo!()` panics of the `got_dns_*`
helpers tracked in `Except` (`.error ()` = panic). -/
def State.next_endpoint_to_attemptE (pick : PickFn) (s : State) :
    Except Unit (Option Endpoint) :=
  match s.host with
  | .ipv4 addr =>
    .ok ((pick s.connection_attempt_protocols).map (fun p =>
      { address := ⟨IpAddr.v4 addr, s.port⟩, protocol := p, ech_config := none }))
  | .ipv6 addr =>
    .ok ((pick s.connection_attempt_protocols).map (fun p =>
      { address := ⟨IpAddr.v6 addr, s.port⟩, protocol := p, ech_config := none }))
  | .domain _ =>
    (s.got_dns_a_responseE).bind (fun got_a =>
      (s.got_dns_aaaa_responseE).bind (fun got_aaaa =>
        .ok (s.planFrom (s.rawCandidates got_a got_aaaa))))

/-- First part of `move_on_without_timeout`: some positive (non-empty)
address answer, where HTTPS hints count. -/
def State.posAnswer (s : State) : Bool :=
  s.dns_queries.any (fun q =>
    match q with
    | .completed _ _ _ (.aaaa (some addrs)) => !addrs.isEmpty
    | .completed _ _ _ (.a (some addrs)) => !addrs.isEmpty
    | .completed _ _ _ (.https (some infos)) =>
      infos.any (fun i => !i.ipv4_hints.isEmpty || !i.ipv6_hints.isEmpty)
    | _ => false)

/-- Second part of `move_on_without_timeout`: a completed answer for the
preferred address family's record type. -/
def State.preferredCompleted (s : State) : Bool :=
  s.dns_queries.any (fun q =>
    !q.is_in_progress &&
      decide (q.record_type = s.network_config.preferred_dns_record_type))

/-- Third part of `move_on_without_timeout`: a completed HTTPS answer for the
primary hostname. -/
def State.httpsCompletedFor (s : State) (hostname : String) : Bool :=
  s.dns_queries.any (fun q =>
    decide (q.target_name = hostname) && !q.is_in_progress &&
      decide (q.record_type = DnsRecordType.https))

/-- `HappyEyeballs::move_on_without_timeout`. -/
def State.move_on_without_timeout (s : State) : Bool :=
  match s.host with
  | .ipv4 _ | .ipv6 _ => false
  | .domain hostname =>
    s.posAnswer && s.preferredCompleted && s.httpsCompletedFor hostname

/-- `HappyEyeballs::move_on_with_timeout`: some positive (possibly empty)
A/AAAA response exists, and some query completed at least
`RESOLUTION_DELAY` ago. -/
def State.move_on_with_timeout (s : State) (now : Nat) : Bool :=
  (s.dns_queries.any (fun q =>
      match q.get_response with
      | some r =>
        r.positive &&
          (decide (r.record_type = DnsRecordType.aaaa) ||
            decide (r.record_type = DnsRecordType.a))
      | none => false)) &&
  (s.dns_queries.any (fun q =>
      match q with
      | .completed _ _ c _ => decide (RESOLUTION_DELAY ≤ now - c)
      | _ => false))

/-- The `move_on` accumulator of `connection_attempt`: readiness without
timeout, readiness with timeout, or an IP-literal host. -/
def State.move_on (s : State) (now : Nat) : Bool :=
  s.move_on_without_timeout || s.move_on_with_timeout now ||
    (match s.host with | .ipv4 _ | .ipv6 _ => true | .domain _ => false)

/-- The stagger guard of `connection_attempt`: some in-progress attempt is
still within `CONNECTION_ATTEMPT_DELAY`. -/
def State.attempt_within_delay (s : State) (now : Nat) : Bool :=
  s.connection_attempts.any
    (fun a => decide (a.state = .inProgress) && a.within_delay now)

/-- `HappyEyeballs::connection_attempt`. -/
def State.connection_attempt (pick : PickFn) (s : State) (now : Nat) :
    State × Option Output :=
  if !s.move_on now then (s, none)
  else if s.attempt_within_delay now then (s, none)
  else
    match s.next_endpoint_to_attempt pick with
    | none => (s, none)
    | some ep =>
      let (id, s') := s.next_id
      ({ s' with connection_attempts :=
          s'.connection_attempts ++ [⟨id, ep, now, .inProgress⟩] },
        some (.attemptConnection id ep))

/-- `connection_attempt` with panics tracked in `Except`. -/
def State.connection_attemptE (pick : PickFn) (s : State) (now : Nat) :
    Except Unit (State × Option Output) :=
  if !s.move_on now then .ok (s, none)
  else if s.attempt_within_delay now then .ok (s, none)
  else
    (s.next_endpoint_to_attemptE pick).bind (fun ep? =>
      match ep? with
      | none => .ok (s, none)
      | some ep =>
        let (id, s') := s.next_id
        .ok ({ s' with connection_attempts :=
            s'.connection_attempts ++ [⟨id, ep, now, .inProgress⟩] },
          some (.attemptConnection id ep)))

/-- `HappyEyeballs::delay` (the timer planner). -/
def State.delay (s : State) (now : Nat) : Option Output :=
  if s.has_successful_connection then none
  else
    match ((s.connection_attempts.filter (fun a => decide (a.state = .inProgress))).map
        (·.started)).max? |>.bind (fun started =>
          if now - started < CONNECTION_ATTEMPT_DELAY then
            some (CONNECTION_ATTEMPT_DELAY - (now - started))
          else none) with
    | some d => some (.timer d)
    | none =>
      if !s.dns_queries.any (fun q => q.is_in_progress) then none
      else
        ((s.dns_queries.filterMap (fun q =>
            match q with
            | .completed _ _ c _ => some c
            | _ => none)).min? |>.bind (fun c =>
              if now - c < RESOLUTION_DELAY then
                some (RESOLUTION_DELAY - (now - c))
              else none)).map (fun d => .timer d)

/-- `HappyEyeballs::process_output` (= `process_output_inner`; the wrapper
only adds logging). -/
def State.process_output (pick : PickFn) (s : State) (now : Nat) :
    State × Option Output :=
  match s.cancel_remaining_attempts with
  | (s1, some o) => (s1, some o)
  | (s1, none) =>
    match s1.send_dns_request with
    | (s2, some o) => (s2, some o)
    | (s2, none) =>
      match s2.connection_attempt pick now with
      | (s3, some o) => (s3, some o)
      | (s3, none) =>
        match s3.send_dns_request_for_target_name with
        | (s4, some o) => (s4, some o)
        | (s4, none) =>
          match s4.delay now with
          | some o => (s4, some o)
          | none =>
            if !s4.has_successful_connection && !s4.has_pending_queries &&
                !s4.has_pending_connections then
              (s4, some .failed)
            else (s4, none)

/-- `process_output` with panics tracked in `Except` (`.error ()` = panic). -/
def State.process_outputE (pick : PickFn) (s : State) (now : Nat) :
    Except Unit (State × Option Output) :=
  match s.cancel_remaining_attempts with
  | (s1, some o) => .ok (s1, some o)
  | (s1, none) =>
    match s1.send_dns_request with
    | (s2, some o) => .ok (s2, some o)
    | (s2, none) =>
      (s2.connection_attemptE pick now).bind (fun r =>
        match r with
        | (s3, some o) => .ok (s3, some o)
        | (s3, none) =>
          match s3.send_dns_request_for_target_name with
          | (s4, some o) => .ok (s4, some o)
          | (s4, none) =>
            match s4.delay now with
            | some o => .ok (s4, some o)
            | none =>
              if !s4.has_successful_connection && !s4.has_pending_queries &&
                  !s4.has_pending_connections then
                .ok (s4, some .failed)
              else .ok (s4, none))

/-- One step of the caller/engine interaction: deliver an input, or call
`process_output` at a given time. -/
inductive Event where
  | input (i : Input) (now : Nat)
  | call (now : Nat)
deriving DecidableEq, Repr

/-- Apply one event to the state; only `call` events produce an output. -/
def stepEvent (pick : PickFn) (s : State) : Event → State × Option Output
  | .input i now => (s.process_input i now, none)
  | .call now => s.process_output pick now

/-- Run a list of events, collecting one (optional) output per event. -/
def runTrace (pick : PickFn) (s : State) : List Event → State × List (Option Output)
  | [] => (s, [])
  | e :: evs =>
    let (s', o) := stepEvent pick s e
    let (sf, os) := runTrace pick s' evs
    (sf, o :: os)

/-- A well-formed input at a state: a DNS result must match an in-progress
query of the same record type, a connection result an in-progress attempt
(anything else is a protocol violation by the caller).  Since the spec also
requires that collaborators never reuse an `Id`, every ledger entry carrying
the input's id must be such a match. -/
def wfInput (s : State) : Input → Bool
  | .dnsResult id r =>
    (s.dns_queries.any (fun q =>
      decide (q.qid = id) && q.is_in_progress && decide (q.record_type = r.record_type))) &&
    (s.dns_queries.all (fun q =>
      !decide (q.qid = id) || (q.is_in_progress && decide (q.record_type = r.record_type))))
  | .connectionResult id _ =>
    (s.connection_attempts.any (fun a =>
      decide (a.id = id) && decide (a.state = .inProgress))) &&
    (s.connection_attempts.all (fun a =>
      !decide (a.id = id) || decide (a.state = .inProgress)))

/-- A well-formed event: `call`s are always allowed. -/
def wfEvent (s : State) : Event → Bool
  | .input i _ => wfInput s i
  | .call _ => true

/-- A well-formed event sequence from a state. -/
def wfTrace (pick : PickFn) (s : State) : List Event → Bool
  | [] => true
  | e :: evs => wfEvent s e && wfTrace pick (stepEvent pick s e).1 evs

/-! ### Basic lemmas about the list helpers -/

theorem mem_insertSorted (cmp : α → α → Ordering) (a x : α) (l : List α) :
    x ∈ insertSorted cmp a l ↔ x = a ∨ x ∈ l := by
  induction l with
  | nil => simp [insertSorted]
  | cons b t ih =>
    simp only [insertSorted]
    split
    · simp only [List.mem_cons, ih]
      tauto
    · simp only [List.mem_cons]

theorem mem_sortStable (cmp : α → α → Ordering) (x : α) (l : List α) :
    x ∈ sortStable cmp l ↔ x ∈ l := by
  induction l with
  | nil => simp [sortStable]
  | cons a t ih => simp [sortStable, mem_insertSorted, ih]

theorem insertSorted_ne_nil (cmp : α → α → Ordering) (a : α) (l : List α) :
    insertSorted cmp a l ≠ [] := by
  cases l with
  | nil => simp [insertSorted]
  | cons b t =>
    simp only [insertSorted]
    split <;> simp

theorem sortStable_eq_nil_iff (cmp : α → α → Ordering) (l : List α) :
    sortStable cmp l = [] ↔ l = [] := by
  cases l with
  | nil => simp [sortStable]
  | cons a t => simp [sortStable, insertSorted_ne_nil]

theorem head?_mem {l : List α} {x : α} (h : l.head? = some x) : x ∈ l := by
  cases l with
  | nil => simp at h
  | cons a t =>
    simp only [List.head?] at h
    cases h
    exact List.mem_cons_self _ _

/-! ### Frame lemmas for `process_input` -/

theorem updateQueries_length (id : Nat) (r : DnsResult) (now : Nat) (l : List DnsQuery) :
    (updateQueries id r now l).length = l.length := by
  induction l with
  | nil => rfl
  | cons q rest ih =>
    by_cases h : q.qid = id
    · simp only [updateQueries, if_pos h]
      split <;> simp
    · simp only [updateQueries, if_neg h, List.length_cons, ih]

theorem updateQueries_other (id : Nat) (r : DnsResult) (now : Nat) (l : List DnsQuery)
    (j : Nat) (q : DnsQuery) (hj : l.get? j = some q) (hne : q.qid ≠ id) :
    (updateQueries id r now l).get? j = some q := by
  induction l generalizing j with
  | nil => simp at hj
  | cons p rest ih =>
    cases j with
    | zero =>
      simp only [List.get?] at hj
      cases hj
      simp only [updateQueries, if_neg hne]
      rfl
    | succ j =>
      simp only [List.get?] at hj
      by_cases h : p.qid = id
      · simp only [updateQueries, if_pos h]
        split <;> simp only [List.get?] <;> exact hj
      · simp only [updateQueries, if_neg h, List.get?]
        exact ih j hj

theorem updateAttempts_length (id : Nat) (st : ConnectionState) (l : List ConnectionAttempt) :
    (updateAttempts id st l).length = l.length := by
  induction l with
  | nil => rfl
  | cons a rest ih =>
    by_cases h : a.id = id
    · simp only [updateAttempts, if_pos h, List.length_cons]
    · simp only [updateAttempts, if_neg h, List.length_cons, ih]

theorem updateAttempts_other (id : Nat) (st : ConnectionState) (l : List ConnectionAttempt)
    (j : Nat) (a : ConnectionAttempt) (hj : l.get? j = some a) (hne : a.id ≠ id) :
    (updateAttempts id st l).get? j = some a := by
  induction l generalizing j with
  | nil => simp at hj
  | cons b rest ih =>
    cases j with
    | zero =>
      simp only [List.get?] at hj
      cases hj
      simp only [updateAttempts, if_neg hne]
      rfl
    | succ j =>
      simp only [List.get?] at hj
      by_cases h : b.id = id
      · simp only [updateAttempts, if_pos h, List.get?]
        exact hj
      · simp only [updateAttempts, if_neg h, List.get?]
        exact ih j hj

/-! ### Component lemmas: `process_input` -/

theorem process_input_network_config (s : State) (i : Input) (now : Nat) :
    (s.process_input i now).network_config = s.network_config := by
  cases i with
  | dnsResult id r => rfl
  | connectionResult id r => cases r <;> rfl

theorem process_input_host (s : State) (i : Input) (now : Nat) :
    (s.process_input i now).host = s.host := by
  cases i with
  | dnsResult id r => rfl
  | connectionResult id r => cases r <;> rfl

theorem process_input_port (s : State) (i : Input) (now : Nat) :
    (s.process_input i now).port = s.port := by
  cases i with
  | dnsResult id r => rfl
  | connectionResult id r => cases r <;> rfl

theorem process_input_id_next (s : State) (i : Input) (now : Nat) :
    (s.process_input i now).id_next = s.id_next := by
  cases i with
  | dnsResult id r => rfl
  | connectionResult id r => cases r <;> rfl

theorem process_input_dns_attempts (s : State) (id : Nat) (r : DnsResult) (now : Nat) :
    (s.process_input (.dnsResult id r) now).connection_attempts = s.connection_attempts := rfl

theorem process_input_conn_queries (s : State) (id : Nat) (r : ConnResult) (now : Nat) :
    (s.process_input (.connectionResult id r) now).dns_queries = s.dns_queries := by
  cases r <;> rfl

/-! ### Component lemmas: `cancel_remaining_attempts` -/

theorem cancelFirst_none_iff (l : List ConnectionAttempt) :
    cancelFirstInProgress l = none ↔ ∀ a ∈ l, a.state ≠ .inProgress := by
  induction l with
  | nil => simp [cancelFirstInProgress]
  | cons a rest ih =>
    by_cases h : a.state = .inProgress
    · simp [cancelFirstInProgress, h]
    · rcases hr : cancelFirstInProgress rest with _ | ⟨l2, addr2⟩
      · simp only [cancelFirstInProgress, if_neg h, hr, Option.map_none']
        have hrest := ih.mp hr
        constructor
        · intro _ b hb
          rcases List.mem_cons.mp hb with rfl | hb2
          · exact h
          · exact hrest b hb2
        · intro _
          trivial
      · simp only [cancelFirstInProgress, if_neg h, hr, Option.map_some']
        constructor
        · intro hx
          simp at hx
        · intro hx
          have hnone : cancelFirstInProgress rest = none :=
            ih.mpr (fun b hb => hx b (List.mem_cons_of_mem _ hb))
          rw [hr] at hnone
          simp at hnone

theorem cancelFirst_some_spec (l l2 : List ConnectionAttempt) (addr : SocketAddr)
    (h : cancelFirstInProgress l = some (l2, addr)) :
    ∃ a ∈ l, a.state = .inProgress ∧ addr = a.endpoint.address := by
  induction l generalizing l2 addr with
  | nil => simp [cancelFirstInProgress] at h
  | cons a rest ih =>
    by_cases ha : a.state = .inProgress
    · refine ⟨a, List.mem_cons_self _ _, ha, ?_⟩
      simp only [cancelFirstInProgress, if_pos ha, Option.some.injEq, Prod.mk.injEq] at h
      exact h.2.symm
    · simp only [cancelFirstInProgress, if_neg ha] at h
      rcases hr : cancelFirstInProgress rest with _ | ⟨l3, addr3⟩
      · rw [hr] at h
        simp at h
      · rw [hr] at h
        simp only [Option.map_some', Option.some.injEq, Prod.mk.injEq] at h
        obtain ⟨b, hb, hbs, hba⟩ := ih l3 addr3 hr
        exact ⟨b, List.mem_cons_of_mem _ hb, hbs, h.2 ▸ hba⟩

theorem cancel_not_succ (s : State) (h : s.has_successful_connection = false) :
    s.cancel_remaining_attempts = (s, none) := by
  simp [State.cancel_remaining_attempts, h]

theorem cancel_none_elim (s : State) (h : (s.cancel_remaining_attempts).2 = none) :
    s.has_successful_connection = false ∧ s.cancel_remaining_attempts = (s, none) := by
  by_cases hs : s.has_successful_connection = true
  · exfalso
    simp only [State.cancel_remaining_attempts, hs, if_true] at h
    rcases hr : cancelFirstInProgress s.connection_attempts with _ | ⟨l2, addr2⟩ <;>
      rw [hr] at h <;> simp at h
  · have hs' : s.has_successful_connection = false := by
      revert hs
      cases s.has_successful_connection <;> simp
    exact ⟨hs', cancel_not_succ s hs'⟩

theorem cancel_out_shape (s : State) (o : Output)
    (h : (s.cancel_remaining_attempts).2 = some o) :
    (∃ addr, o = .cancelConnection addr) ∨ o = .succeeded := by
  by_cases hs : s.has_successful_connection = true
  · simp only [State.cancel_remaining_attempts, hs, if_true] at h
    rcases hr : cancelFirstInProgress s.connection_attempts with _ | ⟨l2, addr2⟩ <;>
      rw [hr] at h
    · simp only [Option.some.injEq] at h
      exact Or.inr h.symm
    · simp only [Option.some.injEq] at h
      exact Or.inl ⟨addr2, h.symm⟩
  · have hs' : s.has_successful_connection = false := by
      revert hs
      cases s.has_successful_connection <;> simp
    rw [cancel_not_succ s hs'] at h
    simp at h

/-! ### Component lemmas: `send_dns_request` and discovered-name queries -/

theorem sendDnsLoop_none_state (s : State) (d : String) (ts : List DnsRecordType)
    (h : (sendDnsLoop s d ts).2 = none) :
    sendDnsLoop s d ts = (s, none) ∧
      ∀ t ∈ ts, s.dns_queries.any (fun q => decide (q.record_type = t)) = true := by
  induction ts with
  | nil => exact ⟨rfl, by simp⟩
  | cons t rest ih =>
    by_cases ht : s.dns_queries.any (fun q => decide (q.record_type = t)) = true
    · simp only [sendDnsLoop, ht, if_true] at h ⊢
      obtain ⟨h1, h2⟩ := ih h
      refine ⟨h1, ?_⟩
      intro t' ht'
      rcases List.mem_cons.mp ht' with rfl | ht2
      · exact ht
      · exact h2 t' ht2
    · exfalso
      simp only [sendDnsLoop, if_neg ht] at h
      simp at h

theorem sendDnsLoop_out_shape (s : State) (d : String) (ts : List DnsRecordType)
    (o : Output) (h : (sendDnsLoop s d ts).2 = some o) :
    ∃ id t, t ∈ ts ∧ o = .sendDnsQuery id d t := by
  induction ts with
  | nil => simp [sendDnsLoop] at h
  | cons t rest ih =>
    by_cases ht : s.dns_queries.any (fun q => decide (q.record_type = t)) = true
    · simp only [sendDnsLoop, ht, if_true] at h
      obtain ⟨id, t', ht', ho⟩ := ih h
      exact ⟨id, t', List.mem_cons_of_mem _ ht', ho⟩
    · simp only [sendDnsLoop, if_neg ht, Option.some.injEq] at h
      exact ⟨s.id_next, t, List.mem_cons_self _ _, h.symm⟩

theorem sendDnsLoop_frame (s : State) (d : String) (ts : List DnsRecordType) :
    ((sendDnsLoop s d ts).1.connection_attempts = s.connection_attempts ∧
      (sendDnsLoop s d ts).1.host = s.host ∧
      (sendDnsLoop s d ts).1.network_config = s.network_config ∧
      (sendDnsLoop s d ts).1.port = s.port) ∧
    ∃ new, (sendDnsLoop s d ts).1.dns_queries = s.dns_queries ++ new ∧
      ∀ q ∈ new, ∃ id t, t ∈ ts ∧ q = .in_progress id d t := by
  induction ts with
  | nil => exact ⟨⟨rfl, rfl, rfl, rfl⟩, [], by simp [sendDnsLoop], by simp⟩
  | cons t rest ih =>
    by_cases ht : s.dns_queries.any (fun q => decide (q.record_type = t)) = true
    · simp only [sendDnsLoop, ht, if_true]
      obtain ⟨hf, new, hq, hnew⟩ := ih
      refine ⟨hf, new, hq, ?_⟩
      intro q hqm
      obtain ⟨id, t', ht', he⟩ := hnew q hqm
      exact ⟨id, t', List.mem_cons_of_mem _ ht', he⟩
    · simp only [sendDnsLoop, if_neg ht]
      refine ⟨⟨rfl, rfl, rfl, rfl⟩, [.in_progress s.id_next d t], rfl, ?_⟩
      intro q hq
      simp only [List.mem_singleton] at hq
      exact ⟨s.id_next, t, List.mem_cons_self _ _, hq⟩

theorem send_dns_request_none_state (s : State) (h : (s.send_dns_request).2 = none) :
    s.send_dns_request = (s, none) := by
  rcases hh : s.host with d | a4 | a6 <;> simp only [State.send_dns_request, hh] at h ⊢
  exact (sendDnsLoop_none_state s d _ h).1

theorem send_dns_request_none_types (s : State) (d : String) (hd : s.host = .domain d)
    (h : (s.send_dns_request).2 = none) :
    ∀ t ∈ [DnsRecordType.https, DnsRecordType.aaaa, DnsRecordType.a],
      s.dns_queries.any (fun q => decide (q.record_type = t)) = true := by
  simp only [State.send_dns_request, hd] at h
  exact (sendDnsLoop_none_state s d _ h).2

theorem send_dns_request_out_shape (s : State) (o : Output)
    (h : (s.send_dns_request).2 = some o) :
    ∃ id tn t, o = .sendDnsQuery id tn t := by
  rcases hh : s.host with d | a4 | a6 <;> simp only [State.send_dns_request, hh] at h
  · obtain ⟨id, t, _, ho⟩ := sendDnsLoop_out_shape s d _ o h
    exact ⟨id, d, t, ho⟩
  · simp at h
  · simp at h

theorem send_dns_request_frame (s : State) :
    ((s.send_dns_request).1.connection_attempts = s.connection_attempts ∧
      (s.send_dns_request).1.host = s.host ∧
      (s.send_dns_request).1.network_config = s.network_config ∧
      (s.send_dns_request).1.port = s.port) ∧
    ∃ new, (s.send_dns_request).1.dns_queries = s.dns_queries ++ new ∧
      ∀ q ∈ new, ∃ id d t, s.host = .domain d ∧
        t ∈ [DnsRecordType.https, DnsRecordType.aaaa, DnsRecordType.a] ∧
        q = .in_progress id d t := by
  rcases hh : s.host with d | a4 | a6 <;> simp only [State.send_dns_request, hh]
  · obtain ⟨hf, new, hq, hnew⟩ := sendDnsLoop_frame s d [.https, .aaaa, .a]
    refine ⟨⟨hf.1, hf.2.1.trans hh, hf.2.2.1, hf.2.2.2⟩, new, hq, ?_⟩
    intro q hqm
    obtain ⟨id, t, ht, he⟩ := hnew q hqm
    exact ⟨id, d, t, rfl, ht, he⟩
  · refine ⟨?_, [], by simp, by simp⟩
    simp [hh]
  · refine ⟨?_, [], by simp, by simp⟩
    simp [hh]

theorem sendForName_some_spec (s : State) (tn : String) (ts : List DnsRecordType)
    (s' : State) (o : Output) (h : sendForName s tn ts = some (s', o)) :
    (s'.connection_attempts = s.connection_attempts ∧ s'.host = s.host ∧
      s'.network_config = s.network_config ∧ s'.port = s.port) ∧
    ∃ id t, t ∈ ts ∧ o = .sendDnsQuery id tn t ∧
      s'.dns_queries = s.dns_queries ++ [.in_progress id tn t] := by
  induction ts with
  | nil => simp [sendForName] at h
  | cons t rest ih =>
    by_cases ht : s.dns_queries.any
        (fun q => decide (q.target_name = tn) && decide (q.record_type = t)) = true
    · simp only [sendForName, ht, if_true] at h
      obtain ⟨hf, id, t', ht', ho, hq⟩ := ih h
      exact ⟨hf, id, t', List.mem_cons_of_mem _ ht', ho, hq⟩
    · simp only [sendForName, if_neg ht, Option.some.injEq] at h
      obtain ⟨hs, ho⟩ := Prod.mk.injEq .. ▸ h
      refine ⟨?_, s.id_next, t, List.mem_cons_self _ _, ho.symm, ?_⟩
      · rw [← hs]
        exact ⟨rfl, rfl, rfl, rfl⟩
      · rw [← hs]
        simp [State.next_id]

theorem sendForNames_none_state (s : State) (tns : List String)
    (h : (sendForNames s tns).2 = none) : sendForNames s tns = (s, none) := by
  induction tns with
  | nil => rfl
  | cons tn rest ih =>
    rcases hr : sendForName s tn [.aaaa, .a] with _ | ⟨s', o⟩
    · simp only [sendForNames, hr] at h ⊢
      exact ih h
    · simp only [sendForNames, hr] at h
      simp at h

theorem sendForNames_spec (s : State) (tns : List String) :
    ((sendForNames s tns).1.connection_attempts = s.connection_attempts ∧
      (sendForNames s tns).1.host = s.host ∧
      (sendForNames s tns).1.network_config = s.network_config ∧
      (sendForNames s tns).1.port = s.port) ∧
    ∃ new, (sendForNames s tns).1.dns_queries = s.dns_queries ++ new ∧
      ∀ q ∈ new, ∃ id tn t, (t = DnsRecordType.aaaa ∨ t = DnsRecordType.a) ∧
        q = .in_progress id tn t := by
  induction tns with
  | nil => exact ⟨⟨rfl, rfl, rfl, rfl⟩, [], by simp [sendForNames], by simp⟩
  | cons tn rest ih =>
    rcases hr : sendForName s tn [.aaaa, .a] with _ | ⟨s', o⟩
    · simpa only [sendForNames, hr] using ih
    · obtain ⟨hf, id, t, ht, ho, hq⟩ := sendForName_some_spec s tn _ s' o hr
      simp only [sendForNames, hr]
      refine ⟨hf, [.in_progress id tn t], hq, ?_⟩
      intro q hqm
      simp only [List.mem_singleton] at hqm
      refine ⟨id, tn, t, ?_, hqm⟩
      simpa using ht

theorem sendForNames_out_shape (s : State) (tns : List String) (o : Output)
    (h : (sendForNames s tns).2 = some o) : ∃ id tn t, o = .sendDnsQuery id tn t := by
  induction tns with
  | nil => simp [sendForNames] at h
  | cons tn rest ih =>
    rcases hr : sendForName s tn [.aaaa, .a] with _ | ⟨s', o'⟩
    · simp only [sendForNames, hr] at h
      exact ih h
    · simp only [sendForNames, hr, Option.some.injEq] at h
      obtain ⟨_, id, t, _, ho, _⟩ := sendForName_some_spec s tn _ s' o' hr
      exact ⟨id, tn, t, h ▸ ho⟩

theorem send_dns_target_none_state (s : State)
    (h : (s.send_dns_request_for_target_name).2 = none) :
    s.send_dns_request_for_target_name = (s, none) :=
  sendForNames_none_state s _ h

theorem send_dns_target_frame (s : State) :
    ((s.send_dns_request_for_target_name).1.connection_attempts = s.connection_attempts ∧
      (s.send_dns_request_for_target_name).1.host = s.host ∧
      (s.send_dns_request_for_target_name).1.network_config = s.network_config ∧
      (s.send_dns_request_for_target_name).1.port = s.port) ∧
    ∃ new, (s.send_dns_request_for_target_name).1.dns_queries = s.dns_queries ++ new ∧
      ∀ q ∈ new, ∃ id tn t, (t = DnsRecordType.aaaa ∨ t = DnsRecordType.a) ∧
        q = .in_progress id tn t := by
  unfold State.send_dns_request_for_target_name
  exact sendForNames_spec s _

theorem send_dns_target_out_shape (s : State) (o : Output)
    (h : (s.send_dns_request_for_target_name).2 = some o) :
    ∃ id tn t, o = .sendDnsQuery id tn t :=
  sendForNames_out_shape s _ o h

/-! ### Component lemmas: `connection_attempt`, `delay` -/

theorem conn_attempt_cases (pick : PickFn) (s : State) (now : Nat) :
    s.connection_attempt pick now = (s, none) ∨
    ∃ ep, s.next_endpoint_to_attempt pick = some ep ∧
      s.attempt_within_delay now = false ∧
      s.connection_attempt pick now =
        ({ s with
            id_next := (s.id_next + 1) % 2 ^ 64
            connection_attempts :=
              s.connection_attempts ++ [⟨s.id_next, ep, now, .inProgress⟩] },
          some (.attemptConnection s.id_next ep)) := by
  unfold State.connection_attempt
  cases hm : s.move_on now with
  | false => simp
  | true =>
    cases hg : s.attempt_within_delay now with
    | true => simp
    | false =>
      rcases hne : s.next_endpoint_to_attempt pick with _ | ep
      · simp
      · right
        refine ⟨ep, rfl, rfl, ?_⟩
        simp [State.next_id]

theorem conn_attempt_none_state (pick : PickFn) (s : State) (now : Nat)
    (h : (s.connection_attempt pick now).2 = none) :
    s.connection_attempt pick now = (s, none) := by
  rcases conn_attempt_cases pick s now with hc | ⟨ep, _, _, hc⟩
  · exact hc
  · rw [hc] at h
    simp at h

theorem conn_attempt_emit (pick : PickFn) (s : State) (now : Nat) (s' : State) (o : Output)
    (h : s.connection_attempt pick now = (s', some o)) :
    ∃ ep, o = .attemptConnection s.id_next ep ∧
      s.next_endpoint_to_attempt pick = some ep ∧
      s.attempt_within_delay now = false ∧
      s' = { s with
        id_next := (s.id_next + 1) % 2 ^ 64
        connection_attempts :=
          s.connection_attempts ++ [⟨s.id_next, ep, now, .inProgress⟩] } := by
  rcases conn_attempt_cases pick s now with hc | ⟨ep, hne, hg, hc⟩
  · rw [hc] at h
    simp at h
  · rw [hc] at h
    obtain ⟨hs, ho⟩ := Prod.mk.injEq .. ▸ h
    exact ⟨ep, (Option.some.inj ho).symm, hne, hg, hs.symm⟩

theorem delay_out_shape (s : State) (now : Nat) (o : Output)
    (h : s.delay now = some o) : ∃ dur, o = .timer dur := by
  unfold State.delay at h
  split at h
  · simp at h
  · split at h
    · next heq =>
      exact ⟨_, (Option.some.inj h).symm⟩
    · split at h
      · simp at h
      · rcases hmin : ((s.dns_queries.filterMap (fun q =>
            match q with
            | .completed _ _ c _ => some c
            | _ => none)).min? |>.bind (fun c =>
              if now - c < RESOLUTION_DELAY then
                some (RESOLUTION_DELAY - (now - c))
              else none)) with _ | dur
        · rw [hmin] at h
          simp at h
        · rw [hmin] at h
          simp only [Option.map_some'] at h
          exact ⟨dur, (Option.some.inj h).symm⟩

theorem delay_none_quiet (s : State) (now : Nat)
    (hpc : s.has_pending_connections = false)
    (hpq : s.has_pending_queries = false) : s.delay now = none := by
  unfold State.delay
  split
  · rfl
  · have hfilter : s.connection_attempts.filter (fun a => decide (a.state = .inProgress)) = [] := by
      rw [List.filter_eq_nil_iff]
      intro a ha
      have := List.any_eq_false.mp hpc a ha
      simpa using this
    rw [hfilter]
    simp only [List.map_nil, List.max?_nil, Option.none_bind]
    rw [show (s.dns_queries.any fun q => q.is_in_progress) = false from hpq]
    simp

/-! ### Component lemmas: `cancel_remaining_attempts` emission forms -/

theorem cancel_succ_emit (s : State) (s1 : State)
    (heq : s.cancel_remaining_attempts = (s1, some Output.succeeded)) :
    s1 = s ∧ s.has_successful_connection = true ∧ s.has_pending_connections = false := by
  by_cases hs : s.has_successful_connection = true
  · simp only [State.cancel_remaining_attempts, hs, if_true] at heq
    rcases hcf : cancelFirstInProgress s.connection_attempts with _ | ⟨l, addr⟩ <;>
      rw [hcf] at heq
    · obtain ⟨h1, _⟩ := Prod.mk.injEq .. ▸ heq
      refine ⟨h1.symm, hs, ?_⟩
      have hall := (cancelFirst_none_iff s.connection_attempts).mp hcf
      rw [State.has_pending_connections, List.any_eq_false]
      intro a ha
      simpa using hall a ha
    · obtain ⟨_, h2⟩ := Prod.mk.injEq .. ▸ heq
      simp at h2
  · have hs' : s.has_successful_connection = false := by
      revert hs
      cases s.has_successful_connection <;> simp
    rw [cancel_not_succ s hs'] at heq
    obtain ⟨_, h2⟩ := Prod.mk.injEq .. ▸ heq
    simp at h2

theorem cancel_succ_of (s : State) (hs : s.has_successful_connection = true)
    (hp : s.has_pending_connections = false) :
    s.cancel_remaining_attempts = (s, some Output.succeeded) := by
  have hcf : cancelFirstInProgress s.connection_attempts = none := by
    rw [cancelFirst_none_iff]
    intro a ha
    have := List.any_eq_false.mp hp a ha
    simpa using this
  simp [State.cancel_remaining_attempts, hs, hcf]

theorem cancel_pendC (s : State) (hs : s.has_successful_connection = true)
    (hp : s.has_pending_connections = true) :
    ∃ a ∈ s.connection_attempts, a.state = .inProgress ∧
      (s.cancel_remaining_attempts).2 = some (.cancelConnection a.endpoint.address) := by
  rcases hcf : cancelFirstInProgress s.connection_attempts with _ | ⟨l, addr⟩
  · exfalso
    have hall := (cancelFirst_none_iff s.connection_attempts).mp hcf
    obtain ⟨a, ha, hpa⟩ := List.any_eq_true.mp hp
    exact hall a ha (by simpa using hpa)
  · obtain ⟨a, ha, has, haddr⟩ := cancelFirst_some_spec s.connection_attempts l addr hcf
    refine ⟨a, ha, has, ?_⟩
    simp [State.cancel_remaining_attempts, hs, hcf, haddr]

/-! ### Dissection of `process_output` -/

theorem po_succ_emit (pick : PickFn) (s : State) (now : Nat) (s' : State)
    (h : s.process_output pick now = (s', some Output.succeeded)) :
    s' = s ∧ s.has_successful_connection = true ∧ s.has_pending_connections = false := by
  unfold State.process_output at h
  split at h
  · next s1 o heq =>
    have hos : some o = some Output.succeeded := congrArg Prod.snd h
    have ho : o = Output.succeeded := by simpa using hos
    subst ho
    have hs1 : s1 = s' := congrArg Prod.fst h
    obtain ⟨h1, h2, h3⟩ := cancel_succ_emit s s1 heq
    exact ⟨hs1 ▸ h1, h2, h3⟩
  · next s1 heq =>
    split at h
    · next s2 o heq2 =>
      obtain ⟨id, tn, t, ho⟩ := send_dns_request_out_shape s1 o (by rw [heq2])
      rw [ho] at h
      have := congrArg Prod.snd h
      simp at this
    · next s2 heq2 =>
      split at h
      · next s3 o heq3 =>
        obtain ⟨ep, ho, _, _, _⟩ := conn_attempt_emit pick s2 now s3 o heq3
        rw [ho] at h
        have := congrArg Prod.snd h
        simp at this
      · next s3 heq3 =>
        split at h
        · next s4 o heq4 =>
          obtain ⟨id, tn, t, ho⟩ := send_dns_target_out_shape s3 o (by rw [heq4])
          rw [ho] at h
          have := congrArg Prod.snd h
          simp at this
        · next s4 heq4 =>
          split at h
          · next o heq5 =>
            obtain ⟨dur, ho⟩ := delay_out_shape s4 now o heq5
            rw [ho] at h
            have := congrArg Prod.snd h
            simp at this
          · next heq5 =>
            split at h
            · have := congrArg Prod.snd h
              simp at this
            · have := congrArg Prod.snd h
              simp at this

theorem po_failed_emit (pick : PickFn) (s : State) (now : Nat) (s' : State)
    (h : s.process_output pick now = (s', some Output.failed)) :
    s' = s ∧ s.has_successful_connection = false ∧ s.has_pending_queries = false ∧
      s.has_pending_connections = false ∧ (s.send_dns_request).2 = none ∧
      (s.send_dns_request_for_target_name).2 = none ∧
      s.connection_attempt pick now = (s, none) ∧ s.delay now = none := by
  unfold State.process_output at h
  split at h
  · next s1 o heq =>
    have hos : some o = some Output.failed := congrArg Prod.snd h
    have ho : o = Output.failed := by simpa using hos
    subst ho
    rcases cancel_out_shape s Output.failed (by rw [heq]) with ⟨addr, hsh⟩ | hsh <;> simp at hsh
  · next s1 heq =>
    have hc := cancel_none_elim s (by rw [heq])
    have hs1 : s1 = s := by
      have := hc.2
      rw [heq] at this
      exact (Prod.mk.injEq .. ▸ this).1
    subst hs1
    split at h
    · next s2 o heq2 =>
      have hos : some o = some Output.failed := congrArg Prod.snd h
      have ho : o = Output.failed := by simpa using hos
      obtain ⟨id, tn, t, hsh⟩ := send_dns_request_out_shape s1 o (by rw [heq2])
      rw [ho] at hsh
      simp at hsh
    · next s2 heq2 =>
      have hss := send_dns_request_none_state s1 (by rw [heq2])
      have hs2 : s2 = s1 := by
        rw [heq2] at hss
        exact (Prod.mk.injEq .. ▸ hss).1
      subst hs2
      split at h
      · next s3 o heq3 =>
        have hos : some o = some Output.failed := congrArg Prod.snd h
        have ho : o = Output.failed := by simpa using hos
        obtain ⟨ep, hsh, _⟩ := conn_attempt_emit pick s2 now s3 o heq3
        rw [ho] at hsh
        simp at hsh
      · next s3 heq3 =>
        have hcs := conn_attempt_none_state pick s2 now (by rw [heq3])
        have hs3 : s3 = s2 := by
          rw [heq3] at hcs
          exact (Prod.mk.injEq .. ▸ hcs).1
        subst hs3
        split at h
        · next s4 o heq4 =>
          have hos : some o = some Output.failed := congrArg Prod.snd h
          have ho : o = Output.failed := by simpa using hos
          obtain ⟨id, tn, t, hsh⟩ := send_dns_target_out_shape s3 o (by rw [heq4])
          rw [ho] at hsh
          simp at hsh
        · next s4 heq4 =>
          have hts := send_dns_target_none_state s3 (by rw [heq4])
          have hs4 : s4 = s3 := by
            rw [heq4] at hts
            exact (Prod.mk.injEq .. ▸ hts).1
          subst hs4
          split at h
          · next o heq5 =>
            have hos : some o = some Output.failed := congrArg Prod.snd h
            have ho : o = Output.failed := by simpa using hos
            obtain ⟨dur, hsh⟩ := delay_out_shape s4 now o heq5
            rw [ho] at hsh
            simp at hsh
          · next heq5 =>
            split at h
            · next hcond =>
              have hs' : s' = s4 := (congrArg Prod.fst h).symm
              simp only [Bool.and_eq_true, Bool.not_eq_true'] at hcond
              refine ⟨hs', hcond.1.1, hcond.1.2, hcond.2, by rw [heq2], by rw [heq4],
                hcs, heq5⟩
            · have := congrArg Prod.snd h
              simp at this

theorem po_attempt_emit (pick : PickFn) (s : State) (now : Nat) (s' : State)
    (id : Nat) (ep : Endpoint)
    (h : s.process_output pick now = (s', some (Output.attemptConnection id ep))) :
    s.has_successful_connection = false ∧ s.send_dns_request = (s, none) ∧
      id = s.id_next ∧ s.next_endpoint_to_attempt pick = some ep ∧
      s.attempt_within_delay now = false ∧
      s' = { s with
        id_next := (s.id_next + 1) % 2 ^ 64
        connection_attempts :=
          s.connection_attempts ++ [⟨s.id_next, ep, now, .inProgress⟩] } := by
  unfold State.process_output at h
  split at h
  · next s1 o heq =>
    have hos : some o = some (Output.attemptConnection id ep) := congrArg Prod.snd h
    have ho : o = Output.attemptConnection id ep := by simpa using hos
    subst ho
    rcases cancel_out_shape s _ (by rw [heq]) with ⟨addr, hsh⟩ | hsh <;> simp at hsh
  · next s1 heq =>
    have hc := cancel_none_elim s (by rw [heq])
    have hs1 : s1 = s := by
      have := hc.2
      rw [heq] at this
      exact (Prod.mk.injEq .. ▸ this).1
    subst hs1
    split at h
    · next s2 o heq2 =>
      have hos : some o = some (Output.attemptConnection id ep) := congrArg Prod.snd h
      have ho : o = Output.attemptConnection id ep := by simpa using hos
      obtain ⟨id2, tn, t, hsh⟩ := send_dns_request_out_shape s1 o (by rw [heq2])
      rw [ho] at hsh
      simp at hsh
    · next s2 heq2 =>
      have hss := send_dns_request_none_state s1 (by rw [heq2])
      have hs2 : s2 = s1 := by
        rw [heq2] at hss
        exact (Prod.mk.injEq .. ▸ hss).1
      subst hs2
      split at h
      · next s3 o heq3 =>
        have hos : some o = some (Output.attemptConnection id ep) := congrArg Prod.snd h
        have ho : o = Output.attemptConnection id ep := by simpa using hos
        subst ho
        have hs3 : s3 = s' := congrArg Prod.fst h
        obtain ⟨ep2, hoe, hne, hg, hpush⟩ := conn_attempt_emit pick s2 now s3 _ heq3
        have hid : id = s2.id_next ∧ ep2 = ep := by
          constructor
          · exact (Output.attemptConnection.injEq .. ▸ hoe).1
          · exact ((Output.attemptConnection.injEq .. ▸ hoe).2).symm
        refine ⟨hc.1, hss, hid.1, ?_, hg, ?_⟩
        · rw [← hid.2]
          exact hne
        · rw [← hs3, hpush, hid.2]
      · next s3 heq3 =>
        have hcs := conn_attempt_none_state pick s2 now (by rw [heq3])
        have hs3 : s3 = s2 := by
          rw [heq3] at hcs
          exact (Prod.mk.injEq .. ▸ hcs).1
        subst hs3
        split at h
        · next s4 o heq4 =>
          have hos : some o = some (Output.attemptConnection id ep) := congrArg Prod.snd h
          have ho : o = Output.attemptConnection id ep := by simpa using hos
          obtain ⟨id2, tn, t, hsh⟩ := send_dns_target_out_shape s3 o (by rw [heq4])
          rw [ho] at hsh
          simp at hsh
        · next s4 heq4 =>
          split at h
          · next o heq5 =>
            have hos : some o = some (Output.attemptConnection id ep) := congrArg Prod.snd h
            have ho : o = Output.attemptConnection id ep := by simpa using hos
            obtain ⟨dur, hsh⟩ := delay_out_shape s4 now o heq5
            rw [ho] at hsh
            simp at hsh
          · next heq5 =>
            split at h
            · have := congrArg Prod.snd h
              simp at this
            · have := congrArg Prod.snd h
              simp at this

theorem po_of_hasSucc (pick : PickFn) (s : State) (now : Nat)
    (hs : s.has_successful_connection = true) :
    s.process_output pick now = s.cancel_remaining_attempts := by
  unfold State.process_output
  rcases hc : s.cancel_remaining_attempts with ⟨s1, o1⟩
  cases o1 with
  | some o => rfl
  | none =>
    exfalso
    have := (cancel_none_elim s (by rw [hc])).1
    rw [hs] at this
    simp at this

theorem po_attempts_extend (pick : PickFn) (s : State) (now : Nat)
    (hs : s.has_successful_connection = false) :
    ∃ l, (s.process_output pick now).1.connection_attempts = s.connection_attempts ++ l ∧
      ∀ a ∈ l, a.state = .inProgress := by
  unfold State.process_output
  split
  · next s1 o heq =>
    rw [cancel_not_succ s hs] at heq
    have := (Prod.mk.injEq .. ▸ heq).2
    simp at this
  · next s1 heq =>
    rw [cancel_not_succ s hs] at heq
    have hs1 : s1 = s := (Prod.mk.injEq .. ▸ heq).1.symm
    subst hs1
    have hda : ∀ s2 o2, s1.send_dns_request = (s2, o2) →
        s2.connection_attempts = s1.connection_attempts := by
      intro s2 o2 hd
      have := (send_dns_request_frame s1).1.1
      rw [hd] at this
      exact this
    split
    · next s2 o heq2 =>
      exact ⟨[], by simp [hda s2 (some o) heq2], by simp⟩
    · next s2 heq2 =>
      have hd2 := hda s2 none heq2
      split
      · next s3 o heq3 =>
        obtain ⟨ep, ho, hne, hg, hpush⟩ := conn_attempt_emit pick s2 now s3 o heq3
        refine ⟨[⟨s2.id_next, ep, now, .inProgress⟩], ?_, ?_⟩
        · simp [hpush, hd2]
        · intro a ha
          simp only [List.mem_singleton] at ha
          rw [ha]
      · next s3 heq3 =>
        have hcs := conn_attempt_none_state pick s2 now (by rw [heq3])
        have hs3 : s3 = s2 := by
          rw [heq3] at hcs
          exact (Prod.mk.injEq .. ▸ hcs).1
        subst hs3
        have hta : ∀ s4 o4, s3.send_dns_request_for_target_name = (s4, o4) →
            s4.connection_attempts = s3.connection_attempts := by
          intro s4 o4 ht
          have := (send_dns_target_frame s3).1.1
          rw [ht] at this
          exact this
        split
        · next s4 o heq4 =>
          exact ⟨[], by simp [hta s4 (some o) heq4, hd2], by simp⟩
        · next s4 heq4 =>
          have ht4 := hta s4 none heq4
          split
          · next o heq5 =>
            exact ⟨[], by simp [ht4, hd2], by simp⟩
          · next heq5 =>
            split
            · exact ⟨[], by simp [ht4, hd2], by simp⟩
            · exact ⟨[], by simp [ht4, hd2], by simp⟩

theorem po_no_succ (pick : PickFn) (s : State) (now : Nat)
    (hs : s.has_successful_connection = false) :
    (s.process_output pick now).1.has_successful_connection = false := by
  obtain ⟨l, hl, hin⟩ := po_attempts_extend pick s now hs
  unfold State.has_successful_connection at hs ⊢
  rw [hl, List.any_append, hs, Bool.false_or]
  rw [List.any_eq_false]
  intro a ha
  have := hin a ha
  simp [this]

/-- Whether an event is a `ConnectionResult` input. -/
def isConnResultInput : Event → Bool
  | .input (.connectionResult _ _) _ => true
  | _ => false

theorem step_no_succ_extend (pick : PickFn) (t : State) (e : Event)
    (he : isConnResultInput e = false) (hs : t.has_successful_connection = false) :
    (stepEvent pick t e).1.has_successful_connection = false ∧
      ∀ a ∈ t.connection_attempts, a ∈ (stepEvent pick t e).1.connection_attempts := by
  cases e with
  | input i n =>
    cases i with
    | dnsResult id r =>
      have hatt : (stepEvent pick t (.input (.dnsResult id r) n)).1.connection_attempts =
          t.connection_attempts := process_input_dns_attempts t id r n
      constructor
      · unfold State.has_successful_connection at hs ⊢
        rw [hatt]
        exact hs
      · intro a ha
        rw [hatt]
        exact ha
    | connectionResult id r => simp [isConnResultInput] at he
  | call n =>
    obtain ⟨l, hl, _⟩ := po_attempts_extend pick t n hs
    refine ⟨po_no_succ pick t n hs, ?_⟩
    intro a ha
    show a ∈ (t.process_output pick n).1.connection_attempts
    rw [hl]
    exact List.mem_append_left _ ha

theorem run_no_succ_extend (pick : PickFn) (evs : List Event) (t : State)
    (he : ∀ e ∈ evs, isConnResultInput e = false)
    (hs : t.has_successful_connection = false) :
    (runTrace pick t evs).1.has_successful_connection = false ∧
      ∀ a ∈ t.connection_attempts, a ∈ (runTrace pick t evs).1.connection_attempts := by
  induction evs generalizing t with
  | nil => exact ⟨hs, fun a ha => ha⟩
  | cons e evs ih =>
    have he0 : isConnResultInput e = false := he e (List.mem_cons_self _ _)
    obtain ⟨h1, h2⟩ := step_no_succ_extend pick t e he0 hs
    obtain ⟨h3, h4⟩ := ih (stepEvent pick t e).1
      (fun e' he' => he e' (List.mem_cons_of_mem _ he')) h1
    have hrun : runTrace pick t (e :: evs) =
        ((runTrace pick (stepEvent pick t e).1 evs).1,
          (stepEvent pick t e).2 :: (runTrace pick (stepEvent pick t e).1 evs).2) := by
      simp [runTrace]
    rw [hrun]
    exact ⟨h3, fun a ha => h4 a (h2 a ha)⟩

theorem guard_false_ge (s : State) (now : Nat)
    (hg : s.attempt_within_delay now = false) :
    ∀ a ∈ s.connection_attempts, a.state = .inProgress →
      CONNECTION_ATTEMPT_DELAY ≤ now - a.started := by
  intro a ha hst
  have h := List.any_eq_false.mp hg a ha
  simp only [ConnectionAttempt.within_delay, Bool.and_eq_true, decide_eq_true_eq,
    not_and, not_lt] at h
  exact h hst

/-- Shared example: a fresh engine for the domain `example.com`, port 443,
default configuration. -/
def exDomain : State := mkState (.domain "example.com") 443 NetworkConfig.default

/-- Shared example run: issue the three DNS queries, answer HTTPS positively
with no records, AAAA with two addresses, A with an empty set, attempt the
first endpoint, and fail it. -/
def c5evs : List Event :=
  [.call 0, .call 0, .call 0,
   .input (.dnsResult 0 (.https (some []))) 0,
   .input (.dnsResult 1 (.aaaa (some [1, 2]))) 0,
   .input (.dnsResult 2 (.a (some []))) 0,
   .call 0,
   .input (.connectionResult 3 (.err "x")) 0]

/-- Claim C5 (amended): a connection attempt is never emitted while another
*in-progress* attempt is less than `CONNECTION_ATTEMPT_DELAY` old (part 1),
and between two successive `AttemptConnection` emissions with no intervening
`ConnectionResult` input, the `now` values passed to `process_output` are at
least `CONNECTION_ATTEMPT_DELAY` apart (part 2).  The un-amended claim said
"another attempt", but the stagger guard in `connection_attempt` only
considers `InProgress` attempts, so a failed attempt is retried with no
delay. -/
theorem he_c5 (pick : PickFn) :
    (∀ (s : State) (now : Nat) (s' : State) (id : Nat) (ep : Endpoint),
      s.process_output pick now = (s', some (.attemptConnection id ep)) →
      ∀ a ∈ s.connection_attempts, a.state = .inProgress →
        CONNECTION_ATTEMPT_DELAY ≤ now - a.started) ∧
    (∀ (s : State) (now1 : Nat) (s1 : State) (id1 : Nat) (ep1 : Endpoint)
      (evs : List Event) (s2 : State) (os : List (Option Output)) (now2 : Nat)
      (s3 : State) (id2 : Nat) (ep2 : Endpoint),
      s.process_output pick now1 = (s1, some (.attemptConnection id1 ep1)) →
      (∀ e ∈ evs, isConnResultInput e = false) →
      runTrace pick s1 evs = (s2, os) →
      s2.process_output pick now2 = (s3, some (.attemptConnection id2 ep2)) →
      now1 + CONNECTION_ATTEMPT_DELAY ≤ now2) := by
  constructor
  · intro s now s' id ep h a ha hst
    obtain ⟨_, _, _, _, hg, _⟩ := po_attempt_emit pick s now s' id ep h
    exact guard_false_ge s now hg a ha hst
  · intro s now1 s1 id1 ep1 evs s2 os now2 s3 id2 ep2 h1 hnc hrun h2
    obtain ⟨hnsucc, _, _, _, _, hpush⟩ := po_attempt_emit pick s now1 s1 id1 ep1 h1
    have hmem1 : (⟨s.id_next, ep1, now1, .inProgress⟩ : ConnectionAttempt) ∈
        s1.connection_attempts := by
      rw [hpush]
      simp
    have hs1succ : s1.has_successful_connection = false := by
      rw [hpush]
      unfold State.has_successful_connection at hnsucc ⊢
      simp only [List.any_append, hnsucc, Bool.false_or, List.any_cons, List.any_nil]
      simp
    obtain ⟨_, hext⟩ := run_no_succ_extend pick evs s1 hnc hs1succ
    have hmem2 : (⟨s.id_next, ep1, now1, .inProgress⟩ : ConnectionAttempt) ∈
        s2.connection_attempts := by
      have := hext _ hmem1
      rw [hrun] at this
      exact this
    obtain ⟨_, _, _, _, hg2, _⟩ := po_attempt_emit pick s2 now2 s3 id2 ep2 h2
    have hge := guard_false_ge s2 now2 hg2 _ hmem2 rfl
    have hD : CONNECTION_ATTEMPT_DELAY = 250 := rfl
    rw [hD] at hge ⊢
    simp only at hge
    omega

/-- Claim C5 counterexample: in a well-formed run for `example.com`, after an
attempt fails at time 0, a second `AttemptConnection` is emitted at time 0
while the failed attempt is 0 ms old, i.e. strictly less than
`CONNECTION_ATTEMPT_DELAY` — refuting "a connection attempt is never emitted
while another attempt is less than 250 ms old". -/
theorem he_c5_counterexample :
    wfTrace pickHead exDomain c5evs = true ∧
    ((runTrace pickHead exDomain c5evs).1.process_output pickHead 0).2 =
      some (.attemptConnection 4
        { address := ⟨IpAddr.v6 2, 443⟩, protocol := .h2OrH1, ech_config := none }) ∧
    ∃ a ∈ (runTrace pickHead exDomain c5evs).1.connection_attempts,
      0 - a.started < CONNECTION_ATTEMPT_DELAY := by
  refine ⟨by decide, by decide, ?_⟩
  refine ⟨⟨3, { address := ⟨IpAddr.v6 1, 443⟩, protocol := .h2OrH1, ech_config := none },
    0, .failed⟩, ?_, by decide⟩
  decide

/-- First endpoint planned in the shared example run. -/
def c5ep1 : Endpoint :=
  { address := ⟨IpAddr.v6 1, 443⟩, protocol := .h2OrH1, ech_config := none }

/-- Claim C5 witness: the amended theorem applied to the concrete emission of
the first attempt in the shared example run (part 1 instantiated; the state
has no prior attempts, so the stagger bound holds for each of them). -/
theorem he_c5_witness :
    ∃ s', (runTrace pickHead exDomain (c5evs.take 6)).1.process_output pickHead 0 =
        (s', some (.attemptConnection 3 c5ep1)) ∧
      ∀ a ∈ (runTrace pickHead exDomain (c5evs.take 6)).1.connection_attempts,
        a.state = .inProgress → CONNECTION_ATTEMPT_DELAY ≤ 0 - a.started :=
  ⟨((runTrace pickHead exDomain (c5evs.take 6)).1.process_output pickHead 0).1,
    by decide,
    (he_c5 pickHead).1 _ 0
      ((runTrace pickHead exDomain (c5evs.take 6)).1.process_output pickHead 0).1
      3 c5ep1 (by decide)⟩

/-- Shared example: a fresh engine for the IPv4 literal `192.0.2.1`
(= 3221225985), port 443, default configuration. -/
def exLit : State := mkState (.ipv4 3221225985) 443 NetworkConfig.default

/-- Shared example run on the literal host: attempt, then fail the attempt. -/
def c2evs : List Event := [.call 0, .input (.connectionResult 0 (.err "e")) 0]

/-- The single endpoint planned for the literal host under the default
configuration. -/
def c2ep : Endpoint :=
  { address := ⟨IpAddr.v4 3221225985, 443⟩, protocol := .h2OrH1, ech_config := none }

/-- Claim C2 (amended): for *domain* hosts, `process_output` never emits an
`AttemptConnection` whose endpoint equals — by the full (address, protocol,
ech_config) tuple — the endpoint of any attempt already in the ledger.  The
un-amended claim also covered IP-literal hosts, but the literal branch of
`next_endpoint_to_attempt` has no already-attempted filter, so the same
endpoint is re-attempted (see the counterexample). -/
theorem he_c2 (pick : PickFn) (s : State) (now : Nat) (s' : State) (id : Nat)
    (ep : Endpoint) (d : String) (hd : s.host = .domain d)
    (h : s.process_output pick now = (s', some (.attemptConnection id ep))) :
    ∀ a ∈ s.connection_attempts, a.endpoint ≠ ep := by
  obtain ⟨_, _, _, hne, _, _⟩ := po_attempt_emit pick s now s' id ep h
  simp only [State.next_endpoint_to_attempt, hd] at hne
  unfold State.planFrom at hne
  have hm := head?_mem hne
  rw [mem_sortStable] at hm
  obtain ⟨_, hpred⟩ := List.mem_filter.mp hm
  have hany : (s.connection_attempts.any fun a => decide (a.endpoint = ep)) = false := by
    simpa using hpred
  intro a ha
  have := List.any_eq_false.mp hany a ha
  simpa using this

/-- Claim C2 counterexample: on the IPv4-literal host, after the only attempt
fails, the engine emits a second `AttemptConnection` whose endpoint equals the
failed attempt's endpoint (full tuple) — refuting the claim for IP-literal
hosts. -/
theorem he_c2_counterexample :
    wfTrace pickHead exLit c2evs = true ∧
    ((runTrace pickHead exLit c2evs).1.process_output pickHead 0).2 =
      some (.attemptConnection 1 c2ep) ∧
    ∃ a ∈ (runTrace pickHead exLit c2evs).1.connection_attempts, a.endpoint = c2ep := by
  refine ⟨by decide, by decide, ⟨⟨0, c2ep, 0, .failed⟩, by decide, rfl⟩⟩

/-- State reached after the first six events of the shared example run
(three queries issued and three answers ingested). -/
def c5pre : State := (runTrace pickHead exDomain (c5evs.take 6)).1

/-- Result state of the first attempt emission in the shared example run. -/
def c5post : State := (c5pre.process_output pickHead 0).1

/-- Claim C2 witness: the amended theorem applied to the concrete first
attempt emission of the shared domain run (the ledger holds no prior attempt,
so the dedup guarantee is vacuously checkable). -/
theorem he_c2_witness :
    c5pre.host = .domain "example.com" ∧
    c5pre.process_output pickHead 0 = (c5post, some (.attemptConnection 3 c5ep1)) ∧
    ∀ a ∈ c5pre.connection_attempts, a.endpoint ≠ c5ep1 :=
  ⟨by decide, by decide,
    he_c2 pickHead c5pre 0 c5post 3 c5ep1 "example.com" (by decide) (by decide)⟩

/-! ### Claim C8: IP-literal endpoint planning -/

theorem getLast?_mem : ∀ {l : List α} {x : α}, l.getLast? = some x → x ∈ l := by
  intro l
  induction l with
  | nil => intro x h; simp at h
  | cons a t ih =>
    intro x h
    cases t with
    | nil =>
      simp only [List.getLast?_singleton, Option.some.injEq] at h
      simp [h]
    | cons b t' =>
      rw [List.getLast?_cons_cons] at h
      exact List.mem_cons_of_mem _ (ih h)

theorem getLast?_eq_none_iff : ∀ {l : List α}, l.getLast? = none ↔ l = [] := by
  intro l
  induction l with
  | nil => simp
  | cons a t ih =>
    cases t with
    | nil => simp [List.getLast?_singleton]
    | cons b t' =>
      rw [List.getLast?_cons_cons]
      simp only [ih]
      simp

theorem validPick_pickHead : ValidPick pickHead := by
  intro l
  constructor
  · intro x hx
    exact head?_mem hx
  · cases l <;> simp [pickHead]

theorem validPick_pickLast : ValidPick pickLast := by
  intro l
  constructor
  · intro x hx
    exact getLast?_mem hx
  · exact getLast?_eq_none_iff

/-- Modelled from the claim wording: the highest-priority element of a
protocol list under the order `H3 < H2OrH1 < H2 < H1`. -/
def highestPriorityProtocol :
    List ConnectionAttemptProtocols → Option ConnectionAttemptProtocols
  | [] => none
  | p :: rest =>
    match highestPriorityProtocol rest with
    | none => some p
    | some q => some (if p.toNat ≤ q.toNat then p else q)

/-- Claim C8 (amended): for an IP-literal host with a non-empty effective
protocol set, the planned candidate is the single endpoint made of the
literal address, the configured port, no ECH config, and *some* member of the
effective protocol set — namely whichever element `HashSet::iter().next()`
yields (modelled by any `ValidPick`).  The un-amended claim required the
highest-priority member, but `HashSet` iteration order is unspecified (see
the counterexample). -/
theorem he_c8 (pick : PickFn) (hv : ValidPick pick) (s : State)
    (hne : s.connection_attempt_protocols ≠ []) :
    (∀ addr, s.host = .ipv4 addr →
      ∃ p ∈ s.connection_attempt_protocols,
        pick s.connection_attempt_protocols = some p ∧
        s.next_endpoint_to_attempt pick =
          some { address := ⟨IpAddr.v4 addr, s.port⟩, protocol := p, ech_config := none }) ∧
    (∀ addr, s.host = .ipv6 addr →
      ∃ p ∈ s.connection_attempt_protocols,
        pick s.connection_attempt_protocols = some p ∧
        s.next_endpoint_to_attempt pick =
          some { address := ⟨IpAddr.v6 addr, s.port⟩, protocol := p, ech_config := none }) := by
  have hp : ∃ p, pick s.connection_attempt_protocols = some p := by
    rcases hcase : pick s.connection_attempt_protocols with _ | p
    · exact absurd ((hv s.connection_attempt_protocols).2.mp hcase) hne
    · exact ⟨p, rfl⟩
  obtain ⟨p, hp⟩ := hp
  have hmem : p ∈ s.connection_attempt_protocols :=
    (hv s.connection_attempt_protocols).1 p hp
  constructor
  · intro addr hh
    exact ⟨p, hmem, hp, by simp [State.next_endpoint_to_attempt, hh, hp]⟩
  · intro addr hh
    exact ⟨p, hmem, hp, by simp [State.next_endpoint_to_attempt, hh, hp]⟩

/-- Configuration with an alt-svc H3 hint (no custom host or port). -/
def cfg8 : NetworkConfig := { NetworkConfig.default with alt_svc := [⟨none, none, .h3⟩] }

/-- IPv4-literal engine whose effective protocol set has two elements. -/
def s8 : State := mkState (.ipv4 7) 443 cfg8

/-- Claim C8 counterexample: with an alt-svc H3 hint the effective protocol
set is `{H3, H2OrH1}`; under the valid `HashSet` iteration model `pickLast`
the planner returns the `H2OrH1` endpoint, not the highest-priority `H3` —
so the claim as stated does not hold for the code (the protocol picked is
whatever `HashSet::iter().next()` yields, which is unspecified). -/
theorem he_c8_counterexample :
    ValidPick pickLast ∧
    s8.host = .ipv4 7 ∧
    s8.connection_attempt_protocols = [.h3, .h2OrH1] ∧
    highestPriorityProtocol s8.connection_attempt_protocols = some .h3 ∧
    s8.next_endpoint_to_attempt pickLast =
      some { address := ⟨IpAddr.v4 7, 443⟩, protocol := .h2OrH1, ech_config := none } :=
  ⟨validPick_pickLast, rfl, by decide, by decide, by decide⟩

/-- Claim C8 witness: the amended theorem applied to the fresh IPv4-literal
engine with the `pickHead` iteration model. -/
theorem he_c8_witness :
    ValidPick pickHead ∧ exLit.connection_attempt_protocols ≠ [] ∧
    ∃ p ∈ exLit.connection_attempt_protocols,
      pickHead exLit.connection_attempt_protocols = some p ∧
      exLit.next_endpoint_to_attempt pickHead =
        some { address := ⟨IpAddr.v4 3221225985, exLit.port⟩
               protocol := p
               ech_config := none } :=
  ⟨validPick_pickHead, by decide,
    (he_c8 pickHead validPick_pickHead exLit (by decide)).1 3221225985 rfl⟩

/-! ### Claim C6: endpoints from HTTPS hint addresses -/

/-- Completed positive HTTPS answer with one record carrying a v4 hint and an
empty ALPN set. -/
def info6 : ServiceInfo :=
  { priority := 1, target_name := "example.com", alpn_protocols := [],
    ech_config := none, ipv4_hints := [16909060], ipv6_hints := [] }

/-- Engine for `example.com` whose ledger holds only that HTTPS answer. -/
def s6 : State :=
  { exDomain with dns_queries := [.completed 0 "example.com" 0 (.https (some [info6]))] }

/-- Claim C6 (amended): candidates built from a completed positive HTTPS
record combine each non-dropped hint address with each protocol of the
*record's own* collapsed ALPN set and the *record's own* `ech_config` (part
1); the HTTPS branch of the planner ignores the effective protocol set and
effective ECH config entirely (part 2); and the hint-dropping flags passed to
the planner are the positive-AAAA/A tests for the *primary* target (part 3).
The un-amended claim used the effective protocol set and effective ECH
config, which the code does not do (see the counterexample and the
`TODO: Only take the overlap with HappyEyeballs::protocols()` in the
source). -/
theorem he_c6 :
    (∀ (info : ServiceInfo) (port : Nat) (got_a got_aaaa : Bool) (ep : Endpoint),
      ep ∈ info.flatten_into_endpoints port got_a got_aaaa ↔
        ((got_aaaa = false ∧ ∃ a ∈ info.ipv6_hints,
            ∃ p ∈ ConnectionAttemptProtocols.from_protocols
                (info.alpn_protocols.contains .h3) (info.alpn_protocols.contains .h2)
                (info.alpn_protocols.contains .h1),
              ep = { address := ⟨IpAddr.v6 a, port⟩
                     protocol := p
                     ech_config := info.ech_config }) ∨
          (got_a = false ∧ ∃ a ∈ info.ipv4_hints,
            ∃ p ∈ ConnectionAttemptProtocols.from_protocols
                (info.alpn_protocols.contains .h3) (info.alpn_protocols.contains .h2)
                (info.alpn_protocols.contains .h1),
              ep = { address := ⟨IpAddr.v4 a, port⟩
                     protocol := p
                     ech_config := info.ech_config }))) ∧
    (∀ (infos : Option (List ServiceInfo)) (port : Nat) (gA gAa : Bool)
        (ps1 ps2 : List ConnectionAttemptProtocols) (e1 e2 : Option Bytes),
      (DnsResult.https infos).flatten_into_endpoints port gA gAa ps1 e1 =
        (DnsResult.https infos).flatten_into_endpoints port gA gAa ps2 e2) ∧
    (∀ (s : State) (d : String), s.host = .domain d →
      s.candidateEndpoints = s.rawCandidates (s.got_dns_a_for d) (s.got_dns_aaaa_for d)) := by
  refine ⟨?_, ?_, ?_⟩
  · intro info port got_a got_aaaa ep
    unfold ServiceInfo.flatten_into_endpoints
    rw [List.mem_flatMap]
    constructor
    · rintro ⟨ip, hip, hep⟩
      rw [List.mem_filter] at hip
      obtain ⟨hmem, hpred⟩ := hip
      rw [List.mem_append] at hmem
      obtain ⟨p, hp, hpe⟩ := List.mem_map.mp hep
      cases hmem with
      | inl hv6 =>
        obtain ⟨a, ha, hae⟩ := List.mem_map.mp hv6
        left
        have hg : got_aaaa = false := by
          rw [← hae] at hpred
          simpa using hpred
        exact ⟨hg, a, ha, p, hp, by rw [← hpe, ← hae]⟩
      | inr hv4 =>
        obtain ⟨a, ha, hae⟩ := List.mem_map.mp hv4
        right
        have hg : got_a = false := by
          rw [← hae] at hpred
          simpa using hpred
        exact ⟨hg, a, ha, p, hp, by rw [← hpe, ← hae]⟩
    · rintro (⟨hg, a, ha, p, hp, rfl⟩ | ⟨hg, a, ha, p, hp, rfl⟩)
      · refine ⟨.v6 a, ?_, ?_⟩
        · rw [List.mem_filter]
          refine ⟨List.mem_append_left _ (List.mem_map_of_mem _ ha), by simp [hg]⟩
        · exact List.mem_map_of_mem _ hp
      · refine ⟨.v4 a, ?_, ?_⟩
        · rw [List.mem_filter]
          refine ⟨List.mem_append_right _ (List.mem_map_of_mem _ ha), by simp [hg]⟩
        · exact List.mem_map_of_mem _ hp
  · intro infos port gA gAa ps1 ps2 e1 e2
    cases infos <;> rfl
  · intro s d hd
    simp [State.candidateEndpoints, hd]

/-- Claim C6 counterexample: the ledger holds a completed positive HTTPS
record with a v4 hint, no positive A answer exists, and the effective
protocol set is `[H2OrH1]` with no effective ECH — yet the planner builds *no*
candidate at all (the record's own ALPN set is empty, so its collapsed
protocol set is empty), refuting "one candidate per protocol in the effective
protocol set, carrying the effective ECH config". -/
theorem he_c6_counterexample :
    s6.dns_queries = [.completed 0 "example.com" 0 (.https (some [info6]))] ∧
    info6.ipv4_hints = [16909060] ∧
    s6.got_dns_a_for "example.com" = false ∧
    s6.connection_attempt_protocols = [.h2OrH1] ∧
    s6.ech_config = none ∧
    ({ address := ⟨IpAddr.v4 16909060, 443⟩
       protocol := .h2OrH1
       ech_config := none } : Endpoint) ∉ s6.candidateEndpoints ∧
    s6.candidateEndpoints = [] := by
  decide

/-- Claim C6 witness: part 3 of the amended theorem applied to the concrete
HTTPS-hint engine. -/
theorem he_c6_witness :
    s6.host = .domain "example.com" ∧
    s6.candidateEndpoints =
      s6.rawCandidates (s6.got_dns_a_for "example.com") (s6.got_dns_aaaa_for "example.com") :=
  ⟨rfl, he_c6.2.2 s6 "example.com" rfl⟩

/-! ### Claim C7: effective ECH configuration -/

theorem findSome?_eq_head?_filterMap (f : α → Option β) (l : List α) :
    l.findSome? f = (l.filterMap f).head? := by
  induction l with
  | nil => rfl
  | cons a t ih =>
    rw [List.findSome?_cons]
    rcases hf : f a with _ | b
    · rw [List.filterMap_cons, hf]
      exact ih
    · rw [List.filterMap_cons, hf]
      rfl

theorem head?_append (l1 l2 : List α) :
    (l1 ++ l2).head? = match l1.head? with | some x => some x | none => l2.head? := by
  cases l1 <;> simp

theorem findSome?_filter_irrelevant (F : α → Option β) (P : α → Bool) (l : List α)
    (h : ∀ a, P a = false → F a = none) :
    (l.filter P).findSome? F = l.findSome? F := by
  induction l with
  | nil => simp
  | cons a t ih =>
    rcases hp : P a with _ | _
    · rw [List.filter_cons_of_neg (by simp [hp]), List.findSome?_cons, h a hp, ih]
    · rw [List.filter_cons_of_pos (by simp [hp]), List.findSome?_cons, List.findSome?_cons]
      rcases hf : F a with _ | b
      · exact ih
      · rfl

theorem scan_head (F : α → Option (List β)) (g : β → Option γ) (l : List α) :
    (l.findSome? (fun x => (F x).bind (fun ys => ys.findSome? g))) =
    (((l.filterMap F).flatten).filterMap g).head? := by
  induction l with
  | nil => rfl
  | cons a t ih =>
    rw [List.findSome?_cons, List.filterMap_cons]
    rcases hF : F a with _ | ys
    · exact ih
    · show (match ys.findSome? g with
          | some b => some b
          | none => t.findSome? (fun x => (F x).bind (fun ys => ys.findSome? g))) =
        ((ys ++ (t.filterMap F).flatten).filterMap g).head?
      rw [List.filterMap_append, head?_append, findSome?_eq_head?_filterMap]
      rcases hg : (ys.filterMap g).head? with _ | b
      · exact ih
      · rfl

/-- The code's scan order for the effective ECH config: all `ech_config`
values carried by service-info records of completed positive HTTPS answers
whose *query* target name equals `d`, in ledger order (queries) and record
order (within an answer).  `HappyEyeballs::ech_config` filters by the DNS
query's target name and never reads each record's own `target_name` (the
source carries a TODO about other target names). -/
def echSpecList (s : State) (d : String) : List Bytes :=
  ((s.dns_queries.filterMap (fun q =>
      match q with
      | .completed _ tn _ (.https (some infos)) => if tn = d then some infos else none
      | _ => none)).flatten).filterMap (fun i => i.ech_config)

theorem findSome?_comp_map (f : α → β) (g : β → Option γ) (l : List α) :
    (l.map f).findSome? g = l.findSome? (fun a => g (f a)) := by
  induction l with
  | nil => rfl
  | cons a t ih =>
    rw [List.map_cons, List.findSome?_cons, List.findSome?_cons]
    rcases g (f a) with _ | b
    · exact ih
    · rfl

/-- Replace a service-info record's own `target_name`, keeping everything
else (used to state that the ECH scan never consults it). -/
def ServiceInfo.set_target (tn : String) (i : ServiceInfo) : ServiceInfo :=
  { i with target_name := tn }

/-- Replace the own `target_name` of every record inside a positive HTTPS
answer. -/
def retargetResult (tn : String) : DnsResult → DnsResult
  | .https (some infos) => .https (some (infos.map (ServiceInfo.set_target tn)))
  | r => r

/-- Replace the own `target_name` of every record inside a completed query's
answer (the query's target name is untouched). -/
def retargetQuery (tn : String) : DnsQuery → DnsQuery
  | .completed id tgt c r => .completed id tgt c (retargetResult tn r)
  | q => q

/-- Claim C7 (amended): the effective ECH configuration equals the first
`ech_config` found, in ledger order, among the service-info records of
completed positive HTTPS answers whose *query* target name equals the primary
target — absent when no such record carries one (`head?` of the empty list),
and unchanged when the ledger is restricted to primary-target queries; the
record's *own* `target_name` is never consulted (rewriting every record's own
target name arbitrarily leaves the result unchanged — so a record whose own
target name differs from the primary target can supply the effective ECH
config); for IP-literal hosts there is no ECH configuration. -/
theorem he_c7 (s : State) :
    (∀ d, s.host = .domain d →
      s.ech_config = (echSpecList s d).head? ∧
      State.ech_config
          { s with dns_queries := s.dns_queries.filter (fun q => decide (q.target_name = d)) } =
        s.ech_config) ∧
    (∀ tn, State.ech_config
        { s with dns_queries := s.dns_queries.map (retargetQuery tn) } =
      s.ech_config) ∧
    (∀ addr, s.host = .ipv4 addr ∨ s.host = .ipv6 addr → s.ech_config = none) := by
  refine ⟨?_, ?_, ?_⟩
  · intro d hd
    constructor
    · simp only [State.ech_config, hd, echSpecList]
      exact scan_head _ _ s.dns_queries
    · simp only [State.ech_config, hd]
      apply findSome?_filter_irrelevant
      intro q hq
      match q with
      | .in_progress i tn t => rfl
      | .completed i tn c (.aaaa r) => rfl
      | .completed i tn c (.a r) => rfl
      | .completed i tn c (.https none) => rfl
      | .completed i tn c (.https (some infos)) =>
        have htn : ¬(tn = d) := by
          simpa [DnsQuery.target_name] using hq
        show ((if tn = d then some infos else none).bind
          (fun infos => infos.findSome? (fun i => i.ech_config))) = none
        rw [if_neg htn]
        rfl
  · intro tn
    rcases hh : s.host with d | a4 | a6
    · simp only [State.ech_config, hh]
      rw [findSome?_comp_map]
      apply congrArg (fun f => List.findSome? f s.dns_queries)
      funext q
      match q with
      | .in_progress i tgt t => rfl
      | .completed i tgt c (.aaaa r) => rfl
      | .completed i tgt c (.a r) => rfl
      | .completed i tgt c (.https none) => rfl
      | .completed i tgt c (.https (some infos)) =>
        show ((if tgt = d then some (infos.map (ServiceInfo.set_target tn)) else none).bind
            (fun infos => infos.findSome? (fun i => i.ech_config))) =
          ((if tgt = d then some infos else none).bind
            (fun infos => infos.findSome? (fun i => i.ech_config)))
        by_cases htgt : tgt = d
        · rw [if_pos htgt, if_pos htgt]
          show (infos.map (ServiceInfo.set_target tn)).findSome? (fun i => i.ech_config) =
            infos.findSome? (fun i => i.ech_config)
          rw [findSome?_comp_map]
          rfl
        · rw [if_neg htgt, if_neg htgt]
    · simp [State.ech_config, hh]
    · simp [State.ech_config, hh]
  · intro addr h
    rcases h with h | h <;> simp [State.ech_config, h]

/-- One parsed HTTPS record whose own `target_name` differs from the primary
host but which carries an ECH config. -/
def info7 : ServiceInfo :=
  { priority := 1
    target_name := "cdn.other.net"
    alpn_protocols := []
    ech_config := some [7]
    ipv4_hints := []
    ipv6_hints := [] }

/-- Domain engine whose primary HTTPS answer holds only the off-target record
`info7`, plus a positive AAAA answer supplying one address. -/
def s7 : State :=
  { exDomain with
    dns_queries := [.completed 0 "example.com" 0 (.https (some [info7])),
      .completed 1 "example.com" 0 (.aaaa (some [1]))] }

/-- Claim C7 counterexample: the only record in the primary HTTPS answer has
own `target_name` `"cdn.other.net"` ≠ the primary `"example.com"`, yet its
`ech_config` becomes the effective ECH configuration and is attached to the
planned AAAA endpoint — `HappyEyeballs::ech_config` filters by the query's
target name only, so the claim's clause "a record whose target_name differs
from the primary target never supplies the effective ECH config" is false of
the code. -/
theorem he_c7_counterexample :
    s7.host = .domain "example.com" ∧
    info7.target_name = "cdn.other.net" ∧
    ("cdn.other.net" ≠ "example.com") ∧
    s7.ech_config = some [7] ∧
    ({ address := ⟨IpAddr.v6 1, 443⟩
       protocol := .h2OrH1
       ech_config := some [7] } : Endpoint) ∈ s7.candidateEndpoints := by
  decide

/-- Claim C7 witness: the amended theorem applied to the concrete HTTPS-hint
engine `s6` (domain host hypothesis discharged by `rfl`) and to a concrete
own-target rewrite. -/
theorem he_c7_witness :
    s6.host = .domain "example.com" ∧
    (s6.ech_config = (echSpecList s6 "example.com").head? ∧
      State.ech_config
          { s6 with dns_queries :=
              s6.dns_queries.filter (fun q => decide (q.target_name = "example.com")) } =
        s6.ech_config) ∧
    State.ech_config
        { s6 with dns_queries := s6.dns_queries.map (retargetQuery "other.example") } =
      s6.ech_config :=
  ⟨rfl, (he_c7 s6).1 "example.com" rfl, (he_c7 s6).2.1 "other.example"⟩

/-! ### Claim C4: non-timeout readiness -/

/-- Modelled from the claim wording, condition 1: some completed AAAA or A
answer has a non-empty address vector, or some completed HTTPS answer
contains a service-info with a non-empty hint vector. -/
def C4PosAddressAnswer (s : State) : Prop :=
  (∃ q ∈ s.dns_queries, ∃ addrs, addrs ≠ [] ∧
      (q.get_response = some (.aaaa (some addrs)) ∨ q.get_response = some (.a (some addrs)))) ∨
  (∃ q ∈ s.dns_queries, ∃ infos, q.get_response = some (.https (some infos)) ∧
      ∃ i ∈ infos, i.ipv4_hints ≠ [] ∨ i.ipv6_hints ≠ [])

/-- Modelled from the claim wording, condition 2: a completed answer exists
for the preferred address family's record type (AAAA when the preference is
`DualStackPreferV6` or `Ipv6Only`, A when `DualStackPreferV4` or
`Ipv4Only`). -/
def C4PreferredFamilyCompleted (s : State) : Prop :=
  ∃ q ∈ s.dns_queries, q.is_in_progress = false ∧
    q.record_type = (match s.network_config.ip with
      | .dualStackPreferV6 | .ipv6Only => DnsRecordType.aaaa
      | .dualStackPreferV4 | .ipv4Only => DnsRecordType.a)

/-- Modelled from the claim wording, condition 3: a completed HTTPS answer
exists for the primary target. -/
def C4HttpsCompleted (s : State) (d : String) : Prop :=
  ∃ q ∈ s.dns_queries, q.target_name = d ∧ q.is_in_progress = false ∧
    q.record_type = .https

theorem posAnswer_iff (s : State) : s.posAnswer = true ↔ C4PosAddressAnswer s := by
  unfold State.posAnswer C4PosAddressAnswer
  rw [List.any_eq_true]
  constructor
  · rintro ⟨q, hq, hpred⟩
    match q, hq, hpred with
    | .in_progress i tn t, hq, hpred => simp at hpred
    | .completed i tn c (.aaaa (some addrs)), hq, hpred =>
      refine Or.inl ⟨_, hq, addrs, ?_, Or.inl rfl⟩
      simpa using hpred
    | .completed i tn c (.aaaa none), hq, hpred => simp at hpred
    | .completed i tn c (.a (some addrs)), hq, hpred =>
      refine Or.inl ⟨_, hq, addrs, ?_, Or.inr rfl⟩
      simpa using hpred
    | .completed i tn c (.a none), hq, hpred => simp at hpred
    | .completed i tn c (.https (some infos)), hq, hpred =>
      refine Or.inr ⟨_, hq, infos, rfl, ?_⟩
      simpa using hpred
    | .completed i tn c (.https none), hq, hpred => simp at hpred
  · rintro (⟨q, hq, addrs, hne, hresp | hresp⟩ | ⟨q, hq, infos, hresp, i, hi, hh⟩)
    · refine ⟨q, hq, ?_⟩
      rcases q with ⟨i2, tn, t⟩ | ⟨i2, tn, c, r⟩
      · simp [DnsQuery.get_response] at hresp
      · have hr : r = .aaaa (some addrs) := by
          simpa [DnsQuery.get_response] using hresp
        subst hr
        simpa using hne
    · refine ⟨q, hq, ?_⟩
      rcases q with ⟨i2, tn, t⟩ | ⟨i2, tn, c, r⟩
      · simp [DnsQuery.get_response] at hresp
      · have hr : r = .a (some addrs) := by
          simpa [DnsQuery.get_response] using hresp
        subst hr
        simpa using hne
    · refine ⟨q, hq, ?_⟩
      rcases q with ⟨i2, tn, t⟩ | ⟨i2, tn, c, r⟩
      · simp [DnsQuery.get_response] at hresp
      · have hr : r = .https (some infos) := by
          simpa [DnsQuery.get_response] using hresp
        subst hr
        simp only [List.any_eq_true]
        refine ⟨i, hi, ?_⟩
        rcases hh with h4 | h6
        · simp [h4]
        · simp [h6]

theorem preferredCompleted_iff (s : State) :
    s.preferredCompleted = true ↔ C4PreferredFamilyCompleted s := by
  unfold State.preferredCompleted C4PreferredFamilyCompleted
  rw [List.any_eq_true]
  constructor
  · rintro ⟨q, hq, hpred⟩
    rw [Bool.and_eq_true] at hpred
    refine ⟨q, hq, ?_, ?_⟩
    · simpa using hpred.1
    · have : q.record_type = s.network_config.preferred_dns_record_type := by
        simpa using hpred.2
      exact this
  · rintro ⟨q, hq, h1, h2⟩
    refine ⟨q, hq, ?_⟩
    rw [Bool.and_eq_true]
    constructor
    · simpa using h1
    · have : q.record_type = s.network_config.preferred_dns_record_type := h2
      simpa using this

theorem httpsCompletedFor_iff (s : State) (d : String) :
    s.httpsCompletedFor d = true ↔ C4HttpsCompleted s d := by
  unfold State.httpsCompletedFor C4HttpsCompleted
  rw [List.any_eq_true]
  constructor
  · rintro ⟨q, hq, hpred⟩
    simp only [Bool.and_eq_true, decide_eq_true_eq, Bool.not_eq_true'] at hpred
    exact ⟨q, hq, hpred.1.1, hpred.1.2, hpred.2⟩
  · rintro ⟨q, hq, h1, h2, h3⟩
    refine ⟨q, hq, ?_⟩
    simp only [Bool.and_eq_true, decide_eq_true_eq, Bool.not_eq_true']
    exact ⟨⟨h1, h2⟩, h3⟩

/-- Claim C4: for a domain target, non-timeout readiness holds exactly when
(1) some completed positive non-empty address answer (AAAA, A, or HTTPS hint
vector) exists, (2) a completed answer exists for the preferred address
family's record type, and (3) a completed HTTPS answer exists for the primary
target. -/
theorem he_c4 (s : State) (d : String) (hd : s.host = .domain d) :
    s.move_on_without_timeout = true ↔
      (C4PosAddressAnswer s ∧ C4PreferredFamilyCompleted s ∧ C4HttpsCompleted s d) := by
  unfold State.move_on_without_timeout
  rw [hd]
  simp only [Bool.and_eq_true]
  rw [posAnswer_iff, preferredCompleted_iff, httpsCompletedFor_iff]
  tauto

/-- Claim C4 witness: the readiness characterization applied to the concrete
HTTPS-hint engine `s6`. -/
theorem he_c4_witness :
    s6.host = .domain "example.com" ∧
    (s6.move_on_without_timeout = true ↔
      (C4PosAddressAnswer s6 ∧ C4PreferredFamilyCompleted s6 ∧
        C4HttpsCompleted s6 "example.com")) :=
  ⟨rfl, he_c4 s6 "example.com" rfl⟩

/-! ### Claim C3: ill-formed inputs -/

/-- Claim C3 evaluation at the failing input: starting from the IPv4-literal
engine, a run attempts, succeeds, and emits the terminal `Succeeded`; then an
ill-formed `ConnectionResult{Err}` for the already-terminal attempt id 0 is
*not* dropped — `on_connection_result` overwrites the attempt's state from
`Succeeded` to `Failed` (release semantics; debug builds panic on the
`debug_assert_eq!`), changing the engine state and destroying the terminal
`Succeeded` status. -/
theorem he_c3_code_evaluation :
    (runTrace pickHead exLit [.call 0, .input (.connectionResult 0 .ok) 0, .call 0]).2 =
      [some (.attemptConnection 0 c2ep), none, some .succeeded] ∧
    wfInput (runTrace pickHead exLit
        [.call 0, .input (.connectionResult 0 .ok) 0, .call 0]).1
      (.connectionResult 0 (.err "boom")) = false ∧
    ((runTrace pickHead exLit
        [.call 0, .input (.connectionResult 0 .ok) 0, .call 0]).1.connection_attempts.map
      (fun a => a.state)) = [.succeeded] ∧
    (((runTrace pickHead exLit
        [.call 0, .input (.connectionResult 0 .ok) 0, .call 0]).1.process_input
          (.connectionResult 0 (.err "boom")) 0).connection_attempts.map
      (fun a => a.state)) = [.failed] ∧
    ((runTrace pickHead exLit
        [.call 0, .input (.connectionResult 0 .ok) 0, .call 0]).1.process_input
          (.connectionResult 0 (.err "boom")) 0) ≠
      (runTrace pickHead exLit [.call 0, .input (.connectionResult 0 .ok) 0, .call 0]).1 := by
  decide

/-! ### Claim C10: frame of `process_input` -/

/-- The correlator id carried by an input event. -/
def Input.inputId : Input → Nat
  | .dnsResult id _ => id
  | .connectionResult id _ => id

/-- Claim C10: `process_input` emits no output (its type returns only the
state) and mutates at most the single ledger entry whose id equals the
input's id: the configuration, host, port, id counter, both ledger lengths,
and every entry with a different id are unchanged; a DNS input leaves the
attempt ledger untouched and a connection input leaves the DNS ledger
untouched. -/
theorem he_c10 (s : State) (i : Input) (now : Nat) :
    (s.process_input i now).network_config = s.network_config ∧
    (s.process_input i now).host = s.host ∧
    (s.process_input i now).port = s.port ∧
    (s.process_input i now).id_next = s.id_next ∧
    (s.process_input i now).dns_queries.length = s.dns_queries.length ∧
    (s.process_input i now).connection_attempts.length = s.connection_attempts.length ∧
    (∀ j q, s.dns_queries.get? j = some q → q.qid ≠ i.inputId →
      (s.process_input i now).dns_queries.get? j = some q) ∧
    (∀ j a, s.connection_attempts.get? j = some a → a.id ≠ i.inputId →
      (s.process_input i now).connection_attempts.get? j = some a) ∧
    (∀ id r, i = .dnsResult id r →
      (s.process_input i now).connection_attempts = s.connection_attempts) ∧
    (∀ id r, i = .connectionResult id r →
      (s.process_input i now).dns_queries = s.dns_queries) := by
  cases i with
  | dnsResult id r =>
    refine ⟨rfl, rfl, rfl, rfl, updateQueries_length id r now s.dns_queries, rfl,
      ?_, ?_, ?_, ?_⟩
    · intro j q hj hne
      exact updateQueries_other id r now s.dns_queries j q hj hne
    · intro j a hj hne
      exact hj
    · intro id2 r2 hi
      rfl
    · intro id2 r2 hi
      cases hi
  | connectionResult id r =>
    have hq : ∀ st, (updateAttempts id st s.connection_attempts).length =
        s.connection_attempts.length := fun st => updateAttempts_length id st _
    cases r with
    | ok =>
      refine ⟨rfl, rfl, rfl, rfl, rfl, hq _, ?_, ?_, ?_, ?_⟩
      · intro j q hj hne
        exact hj
      · intro j a hj hne
        exact updateAttempts_other id _ s.connection_attempts j a hj hne
      · intro id2 r2 hi
        cases hi
      · intro id2 r2 hi
        rfl
    | err msg =>
      refine ⟨rfl, rfl, rfl, rfl, rfl, hq _, ?_, ?_, ?_, ?_⟩
      · intro j q hj hne
        exact hj
      · intro j a hj hne
        exact updateAttempts_other id _ s.connection_attempts j a hj hne
      · intro id2 r2 hi
        cases hi
      · intro id2 r2 hi
        rfl

/-- Claim C10 witness: the frame theorem applied to a connection result with
an id unknown to the ledger, checked on the concrete post-attempt state of
the shared domain run. -/
theorem he_c10_witness :
    c5post.connection_attempts.get? 0 = some ⟨3, c5ep1, 0, .inProgress⟩ ∧
    ((3 : Nat) ≠ (Input.connectionResult 99 (.err "x")).inputId) ∧
    (c5post.process_input (.connectionResult 99 (.err "x")) 0).connection_attempts.get? 0 =
      some ⟨3, c5ep1, 0, .inProgress⟩ :=
  ⟨by decide, by decide,
    (he_c10 c5post (.connectionResult 99 (.err "x")) 0).2.2.2.2.2.2.2.1 0 _ (by decide)
      (by decide)⟩

/-! ### Claim C9: no panics -/

theorem nextE_eq (pick : PickFn) (s : State) :
    s.next_endpoint_to_attemptE pick = .ok (s.next_endpoint_to_attempt pick) := by
  rcases hh : s.host with d | a4 | a6 <;>
    simp only [State.next_endpoint_to_attemptE, State.next_endpoint_to_attempt,
      State.got_dns_a_responseE, State.got_dns_aaaa_responseE, hh] <;>
    rfl

theorem connE_eq (pick : PickFn) (s : State) (now : Nat) :
    s.connection_attemptE pick now = .ok (s.connection_attempt pick now) := by
  unfold State.connection_attemptE State.connection_attempt
  cases hm : s.move_on now
  · rfl
  · cases hg : s.attempt_within_delay now
    · rw [nextE_eq]
      rcases hne : s.next_endpoint_to_attempt pick with _ | ep <;> rfl
    · rfl

theorem bindE_ok (x : α) (f : α → Except Unit β) : Except.bind (Except.ok x) f = f x := rfl

/-- Claim C9: the engine never panics on well-formed operation.  The only
`panic!`-class expressions in `lib.rs` are the `todo!()` branches of
`got_dns_aaaa_response` / `got_dns_a_response` (reached only for IP-literal
hosts) and the release-no-op `debug_assert!`s.  `process_outputE` tracks the
`todo!()` panics in `Except`, and for *every* state — literal or domain — it
returns `.ok` of the total model: the `todo!()` branches are unreachable
because `next_endpoint_to_attempt` returns early for IP-literal hosts and
only consults the two helpers when the host is a domain.  `process_input`
contains no panic source at all (its model is the total `process_input`). -/
theorem he_c9 (pick : PickFn) (s : State) (now : Nat) :
    s.process_outputE pick now = .ok (s.process_output pick now) := by
  unfold State.process_outputE State.process_output
  split
  · rfl
  · next s1 heq =>
    split
    · rfl
    · next s2 heq2 =>
      rw [connE_eq, bindE_ok]
      split
      · rfl
      · next s3 heq3 =>
        split
        · rfl
        · next s4 heq4 =>
          rcases hdel : s4.delay now with _ | o5
          · cases hcond : (!s4.has_successful_connection && !s4.has_pending_queries &&
              !s4.has_pending_connections) <;> simp [hcond]
          · rfl

/-! ### Claim C1 infrastructure: frames and the ledger invariant -/

theorem cancel_frame (s : State) :
    (s.cancel_remaining_attempts).1.dns_queries = s.dns_queries ∧
      (s.cancel_remaining_attempts).1.host = s.host := by
  unfold State.cancel_remaining_attempts
  split
  · split
    · exact ⟨rfl, rfl⟩
    · exact ⟨rfl, rfl⟩
  · exact ⟨rfl, rfl⟩

theorem conn_frame (pick : PickFn) (s : State) (now : Nat) :
    (s.connection_attempt pick now).1.dns_queries = s.dns_queries ∧
      (s.connection_attempt pick now).1.host = s.host := by
  rcases conn_attempt_cases pick s now with hc | ⟨ep, _, _, hc⟩ <;> rw [hc] <;>
    exact ⟨rfl, rfl⟩

theorem po_result_cases (pick : PickFn) (s : State) (now : Nat) :
    (s.process_output pick now).1 = (s.cancel_remaining_attempts).1 ∨
    (s.cancel_remaining_attempts = (s, none) ∧
      ((s.process_output pick now).1 = (s.send_dns_request).1 ∨
        (s.send_dns_request = (s, none) ∧
          ((s.process_output pick now).1 = (s.connection_attempt pick now).1 ∨
            (s.connection_attempt pick now = (s, none) ∧
              ((s.process_output pick now).1 = (s.send_dns_request_for_target_name).1 ∨
                (s.send_dns_request_for_target_name = (s, none) ∧
                  (s.process_output pick now).1 = s))))))) := by
  unfold State.process_output
  split
  · next s1 o heq =>
    left
    rw [heq]
  · next s1 heq =>
    have hc := (cancel_none_elim s (by rw [heq])).2
    have hs1 : s1 = s := by
      rw [hc] at heq
      exact (Prod.mk.injEq .. ▸ heq).1.symm
    subst hs1
    right
    refine ⟨hc, ?_⟩
    split
    · next s2 o heq2 =>
      left
      rw [heq2]
    · next s2 heq2 =>
      have hss := send_dns_request_none_state s1 (by rw [heq2])
      have hs2 : s2 = s1 := by
        rw [hss] at heq2
        exact (Prod.mk.injEq .. ▸ heq2).1.symm
      subst hs2
      right
      refine ⟨hss, ?_⟩
      split
      · next s3 o heq3 =>
        left
        rw [heq3]
      · next s3 heq3 =>
        have hcs := conn_attempt_none_state pick s2 now (by rw [heq3])
        have hs3 : s3 = s2 := by
          rw [hcs] at heq3
          exact (Prod.mk.injEq .. ▸ heq3).1.symm
        subst hs3
        right
        refine ⟨hcs, ?_⟩
        split
        · next s4 o heq4 =>
          left
          rw [heq4]
        · next s4 heq4 =>
          have hts := send_dns_target_none_state s3 (by rw [heq4])
          have hs4 : s4 = s3 := by
            rw [hts] at heq4
            exact (Prod.mk.injEq .. ▸ heq4).1.symm
          subst hs4
          right
          refine ⟨hts, ?_⟩
          rcases hdel : s4.delay now with _ | o5
          · split
            · rfl
            · split <;> rfl
          · rfl

theorem po_host (pick : PickFn) (s : State) (now : Nat) :
    (s.process_output pick now).1.host = s.host := by
  rcases po_result_cases pick s now with h | ⟨hc, h | ⟨hd, h | ⟨hca, h | ⟨ht, h⟩⟩⟩⟩
  · rw [h]
    exact (cancel_frame s).2
  · rw [h]
    exact (send_dns_request_frame s).1.2.1
  · rw [h]
    exact (conn_frame pick s now).2
  · rw [h]
    exact (send_dns_target_frame s).1.2.1
  · rw [h]

theorem po_queries_extend (pick : PickFn) (s : State) (now : Nat) (d : String)
    (hd : s.host = .domain d) :
    ∃ new, (s.process_output pick now).1.dns_queries = s.dns_queries ++ new ∧
      ∀ q ∈ new, ∃ id tn t, q = .in_progress id tn t ∧
        (t = DnsRecordType.aaaa ∨ t = DnsRecordType.a ∨
          (t = DnsRecordType.https ∧ tn = d)) := by
  rcases po_result_cases pick s now with h | ⟨hc, h | ⟨hds, h | ⟨hca, h | ⟨ht, h⟩⟩⟩⟩
  · rw [h, (cancel_frame s).1]
    exact ⟨[], by simp, by simp⟩
  · rw [h]
    obtain ⟨_, new, hq, hnew⟩ := send_dns_request_frame s
    refine ⟨new, hq, ?_⟩
    intro q hqm
    obtain ⟨id, d2, t, hh2, htl, he⟩ := hnew q hqm
    have hd2 : d2 = d := by
      rw [hd] at hh2
      exact (Host.domain.injEq .. ▸ hh2).symm
    subst hd2
    refine ⟨id, d2, t, he, ?_⟩
    simp only [List.mem_cons, List.not_mem_nil, or_false] at htl
    rcases htl with rfl | rfl | rfl
    · exact Or.inr (Or.inr ⟨rfl, rfl⟩)
    · exact Or.inl rfl
    · exact Or.inr (Or.inl rfl)
  · rw [h, (conn_frame pick s now).1]
    exact ⟨[], by simp, by simp⟩
  · rw [h]
    obtain ⟨_, new, hq, hnew⟩ := send_dns_target_frame s
    refine ⟨new, hq, ?_⟩
    intro q hqm
    obtain ⟨id, tn, t, ht2, he⟩ := hnew q hqm
    exact ⟨id, tn, t, he, by tauto⟩
  · rw [h]
    exact ⟨[], by simp, by simp⟩

theorem po_queries_lit (pick : PickFn) (s : State) (now : Nat)
    (hq : s.dns_queries = []) (hlit : ∀ d, s.host ≠ .domain d) :
    (s.process_output pick now).1.dns_queries = [] := by
  have hsd : s.send_dns_request = (s, none) := by
    rcases hh : s.host with d | a4 | a6
    · exact absurd hh (hlit d)
    · simp [State.send_dns_request, hh]
    · simp [State.send_dns_request, hh]
  have hst : s.send_dns_request_for_target_name = (s, none) := by
    unfold State.send_dns_request_for_target_name
    rw [hq]
    rfl
  rcases po_result_cases pick s now with h | ⟨hc, h | ⟨hds, h | ⟨hca, h | ⟨ht, h⟩⟩⟩⟩
  · rw [h, (cancel_frame s).1, hq]
  · rw [h, hsd]
    exact hq
  · rw [h, (conn_frame pick s now).1, hq]
  · rw [h, hst]
    exact hq
  · rw [h, hq]

/-- Reachability invariant: IP-literal hosts never have DNS queries, and for
domain hosts every HTTPS-typed query targets the primary domain. -/
def StateInv (s : State) : Prop :=
  match s.host with
  | .domain d => ∀ q ∈ s.dns_queries, q.record_type = .https → q.target_name = d
  | .ipv4 _ | .ipv6 _ => s.dns_queries = []

theorem inv_mk (h : Host) (p : Nat) (c : NetworkConfig) : StateInv (mkState h p c) := by
  unfold StateInv mkState
  cases h <;> simp

theorem inv_po (pick : PickFn) (s : State) (now : Nat) (hinv : StateInv s) :
    StateInv (s.process_output pick now).1 := by
  unfold StateInv at hinv ⊢
  rw [po_host]
  rcases hh : s.host with d | a4 | a6
  · rw [hh] at hinv
    obtain ⟨new, hq, hnew⟩ := po_queries_extend pick s now d hh
    rw [hq]
    intro q hqm ht
    rcases List.mem_append.mp hqm with hold | hnewm
    · exact hinv q hold ht
    · obtain ⟨id, tn, t, he, hcases⟩ := hnew q hnewm
      subst he
      have ht2 : t = DnsRecordType.https := by
        simpa [DnsQuery.record_type] using ht
      subst ht2
      rcases hcases with h1 | h1 | ⟨h1, h2⟩
      · simp at h1
      · simp at h1
      · simp [DnsQuery.target_name, h2]
  · rw [hh] at hinv
    exact po_queries_lit pick s now hinv (by intro d h; rw [hh] at h; cases h)
  · rw [hh] at hinv
    exact po_queries_lit pick s now hinv (by intro d h; rw [hh] at h; cases h)

/-! ### Claim C1 infrastructure: the frozen-failure core -/

theorem pendQ_all (s : State) (h : s.has_pending_queries = false) :
    ∀ q ∈ s.dns_queries, q.is_in_progress = false := by
  intro q hq
  have := List.any_eq_false.mp h q hq
  simpa using this

theorem guard_of_pendC (s : State) (now : Nat)
    (hpc : s.has_pending_connections = false) :
    s.attempt_within_delay now = false := by
  unfold State.attempt_within_delay
  rw [List.any_eq_false]
  intro a ha
  have hna := List.any_eq_false.mp hpc a ha
  simp only [Bool.and_eq_true, decide_eq_true_eq, not_and]
  intro h
  exact absurd h (by simpa using hna)

theorem conn_none_next (pick : PickFn) (s : State) (now : Nat)
    (hmv : s.move_on now = true) (hg : s.attempt_within_delay now = false)
    (h : (s.connection_attempt pick now).2 = none) :
    s.next_endpoint_to_attempt pick = none := by
  unfold State.connection_attempt at h
  rw [hmv, hg] at h
  rcases hne : s.next_endpoint_to_attempt pick with _ | ep
  · rfl
  · rw [hne] at h
    simp at h

theorem posAnswer_false_candidates (s : State) (gA gAa : Bool)
    (hp : s.posAnswer = false) : s.rawCandidates gA gAa = [] := by
  unfold State.rawCandidates
  rw [List.flatMap_eq_nil_iff]
  intro r hr
  obtain ⟨q, hq, hresp⟩ := List.mem_filterMap.mp hr
  have hpred := List.any_eq_false.mp hp q hq
  rcases q with ⟨i, tn, t⟩ | ⟨i, tn, c, r0⟩
  · simp [DnsQuery.get_response] at hresp
  · have hr0 : r0 = r := by
      simpa [DnsQuery.get_response] using hresp
    subst hr0
    match r0, hpred with
    | .https none, hpred => rfl
    | .aaaa none, hpred => rfl
    | .a none, hpred => rfl
    | .aaaa (some addrs), hpred =>
      have : addrs = [] := by
        simpa using hpred
      subst this
      rfl
    | .a (some addrs), hpred =>
      have : addrs = [] := by
        simpa using hpred
      subst this
      rfl
    | .https (some infos), hpred =>
      have hany : (infos.any fun i => !i.ipv4_hints.isEmpty || !i.ipv6_hints.isEmpty) = false := by
        rcases hx : (infos.any fun i => !i.ipv4_hints.isEmpty || !i.ipv6_hints.isEmpty)
        · rfl
        · exact absurd (by simpa using hx) hpred
      show (DnsResult.https (some infos)).flatten_into_endpoints _ _ _ _ _ = []
      unfold DnsResult.flatten_into_endpoints
      rw [List.flatMap_eq_nil_iff]
      intro info hi
      have h2 := List.any_eq_false.mp hany info hi
      have h4 : info.ipv4_hints = [] := by
        rcases hx : info.ipv4_hints.isEmpty
        · exact absurd (by simp [hx]) h2
        · simpa using hx
      have h6 : info.ipv6_hints = [] := by
        rcases hx : info.ipv6_hints.isEmpty
        · exact absurd (by simp [hx]) h2
        · simpa using hx
      unfold ServiceInfo.flatten_into_endpoints
      rw [h4, h6]
      rfl

theorem next_none_of_posFalse (pick : PickFn) (s : State) (d : String)
    (hd : s.host = .domain d) (hp : s.posAnswer = false) :
    s.next_endpoint_to_attempt pick = none := by
  simp only [State.next_endpoint_to_attempt, hd]
  rw [posAnswer_false_candidates s _ _ hp]
  rfl

theorem pref_of_types (s : State)
    (hA : (s.dns_queries.any (fun q => decide (q.record_type = DnsRecordType.aaaa))) = true)
    (hA2 : (s.dns_queries.any (fun q => decide (q.record_type = DnsRecordType.a))) = true)
    (hall : ∀ q ∈ s.dns_queries, q.is_in_progress = false) :
    s.preferredCompleted = true := by
  unfold State.preferredCompleted
  have hsel : s.network_config.preferred_dns_record_type = DnsRecordType.aaaa ∨
      s.network_config.preferred_dns_record_type = DnsRecordType.a := by
    unfold NetworkConfig.preferred_dns_record_type
    rcases s.network_config.ip <;> simp
  rcases hsel with hsel | hsel
  · obtain ⟨q, hq, hpred⟩ := List.any_eq_true.mp hA
    refine List.any_eq_true.mpr ⟨q, hq, ?_⟩
    rw [hsel, hall q hq]
    simpa using hpred
  · obtain ⟨q, hq, hpred⟩ := List.any_eq_true.mp hA2
    refine List.any_eq_true.mpr ⟨q, hq, ?_⟩
    rw [hsel, hall q hq]
    simpa using hpred

theorem https_of_types (s : State) (d : String) (hd : s.host = .domain d)
    (hH : (s.dns_queries.any (fun q => decide (q.record_type = DnsRecordType.https))) = true)
    (hall : ∀ q ∈ s.dns_queries, q.is_in_progress = false)
    (hinv : StateInv s) : s.httpsCompletedFor d = true := by
  obtain ⟨q, hq, hpred⟩ := List.any_eq_true.mp hH
  have htype : q.record_type = DnsRecordType.https := by
    simpa using hpred
  have htarget : q.target_name = d := by
    unfold StateInv at hinv
    rw [hd] at hinv
    exact hinv q hq htype
  refine List.any_eq_true.mpr ⟨q, hq, ?_⟩
  rw [hall q hq]
  simp [htype, htarget]

/-- The frozen state after a `Failed` emission: no success, nothing pending,
no DNS scheduler output, no discovered-name output, and no endpoint left to
attempt. -/
def FailCore (pick : PickFn) (s : State) : Prop :=
  s.has_successful_connection = false ∧ s.has_pending_queries = false ∧
  s.has_pending_connections = false ∧ (s.send_dns_request).2 = none ∧
  (s.send_dns_request_for_target_name).2 = none ∧
  s.next_endpoint_to_attempt pick = none

theorem failed_emission (pick : PickFn) (s : State) (now : Nat) (s' : State)
    (hinv : StateInv s)
    (h : s.process_output pick now = (s', some .failed)) :
    s' = s ∧ FailCore pick s := by
  obtain ⟨hs', hsucc, hpq, hpc, hsd, hst, hconn, hdel⟩ := po_failed_emit pick s now s' h
  refine ⟨hs', hsucc, hpq, hpc, hsd, hst, ?_⟩
  have hguard := guard_of_pendC s now hpc
  rcases hh : s.host with d | a4 | a6
  · cases hmv : s.move_on now
    · have hw : s.move_on_without_timeout = false := by
        unfold State.move_on at hmv
        simp only [Bool.or_eq_false_iff] at hmv
        exact hmv.1.1
      have hall := pendQ_all s hpq
      have htypes := send_dns_request_none_types s d hh hsd
      have hA := htypes DnsRecordType.aaaa (by simp)
      have hA2 := htypes DnsRecordType.a (by simp)
      have hH := htypes DnsRecordType.https (by simp)
      have hpref := pref_of_types s hA hA2 hall
      have hhtt := https_of_types s d hh hH hall hinv
      have hpos : s.posAnswer = false := by
        simp only [State.move_on_without_timeout, hh, hpref, hhtt, Bool.and_true] at hw
        exact hw
      exact next_none_of_posFalse pick s d hh hpos
    · exact conn_none_next pick s now hmv hguard (by rw [hconn])
  · have hmv : s.move_on now = true := by
      unfold State.move_on
      rw [hh]
      simp
    exact conn_none_next pick s now hmv hguard (by rw [hconn])
  · have hmv : s.move_on now = true := by
      unfold State.move_on
      rw [hh]
      simp
    exact conn_none_next pick s now hmv hguard (by rw [hconn])

theorem fail_frozen (pick : PickFn) (s : State) (hcore : FailCore pick s) :
    ∀ now, s.process_output pick now = (s, some .failed) := by
  intro now
  obtain ⟨hsucc, hpq, hpc, hsd, hst, hne⟩ := hcore
  unfold State.process_output
  split
  · next s1 o heq =>
    rw [cancel_not_succ s hsucc] at heq
    have := (Prod.mk.injEq .. ▸ heq).2
    simp at this
  · next s1 heq =>
    rw [cancel_not_succ s hsucc] at heq
    have hs1 : s1 = s := (Prod.mk.injEq .. ▸ heq).1.symm
    subst hs1
    split
    · next s2 o heq2 =>
      rw [heq2] at hsd
      simp at hsd
    · next s2 heq2 =>
      have hs2 : s2 = s1 := by
        rw [send_dns_request_none_state s1 (by rw [heq2])] at heq2
        exact (Prod.mk.injEq .. ▸ heq2).1.symm
      subst hs2
      split
      · next s3 o heq3 =>
        obtain ⟨ep, _, hnee, _, _⟩ := conn_attempt_emit pick s2 now s3 o heq3
        rw [hne] at hnee
        cases hnee
      · next s3 heq3 =>
        have hs3 : s3 = s2 := by
          rw [conn_attempt_none_state pick s2 now (by rw [heq3])] at heq3
          exact (Prod.mk.injEq .. ▸ heq3).1.symm
        subst hs3
        split
        · next s4 o heq4 =>
          rw [heq4] at hst
          simp at hst
        · next s4 heq4 =>
          have hs4 : s4 = s3 := by
            rw [send_dns_target_none_state s3 (by rw [heq4])] at heq4
            exact (Prod.mk.injEq .. ▸ heq4).1.symm
          subst hs4
          rw [delay_none_quiet s4 now hpc hpq]
          simp [hsucc, hpq, hpc]

theorem fail_no_input (s : State) (hpq : s.has_pending_queries = false)
    (hpc : s.has_pending_connections = false) :
    ∀ i, wfInput s i = false := by
  intro i
  cases i with
  | dnsResult id r =>
    have h0 : (s.dns_queries.any (fun q =>
        decide (q.qid = id) && q.is_in_progress && decide (q.record_type = r.record_type)))
        = false := by
      rw [List.any_eq_false]
      intro q hq
      have h1 := pendQ_all s hpq q hq
      simp [h1]
    show ((s.dns_queries.any (fun q =>
        decide (q.qid = id) && q.is_in_progress && decide (q.record_type = r.record_type))) &&
      (s.dns_queries.all (fun q => !decide (q.qid = id) ||
        (q.is_in_progress && decide (q.record_type = r.record_type))))) = false
    rw [h0]
    rfl
  | connectionResult id r =>
    have h0 : (s.connection_attempts.any (fun a =>
        decide (a.id = id) && decide (a.state = .inProgress))) = false := by
      rw [List.any_eq_false]
      intro a ha
      have h1 := List.any_eq_false.mp hpc a ha
      simp only [Bool.and_eq_true, decide_eq_true_eq, not_and]
      intro _
      simpa using h1
    show ((s.connection_attempts.any (fun a =>
        decide (a.id = id) && decide (a.state = .inProgress))) &&
      (s.connection_attempts.all (fun a => !decide (a.id = id) ||
        decide (a.state = .inProgress)))) = false
    rw [h0]
    rfl

/-! ### Claim C1 infrastructure: terminal states and propagation -/

theorem succ_frozen_out (pick : PickFn) (s : State) (now : Nat)
    (hs : s.has_successful_connection = true)
    (hp : s.has_pending_connections = false) :
    s.process_output pick now = (s, some .succeeded) := by
  rw [po_of_hasSucc pick s now hs, cancel_succ_of s hs hp]

theorem succ_input (s : State) (i : Input) (now : Nat) (hw : wfInput s i = true)
    (hs : s.has_successful_connection = true)
    (hp : s.has_pending_connections = false) :
    (s.process_input i now).has_successful_connection = true ∧
      (s.process_input i now).has_pending_connections = false := by
  cases i with
  | dnsResult id r =>
    have hatt := process_input_dns_attempts s id r now
    unfold State.has_successful_connection at hs
    unfold State.has_pending_connections at hp
    unfold State.has_successful_connection State.has_pending_connections
    rw [hatt]
    exact ⟨hs, hp⟩
  | connectionResult id r =>
    exfalso
    have hw' : ((s.connection_attempts.any (fun a =>
        decide (a.id = id) && decide (a.state = .inProgress))) &&
      (s.connection_attempts.all (fun a => !decide (a.id = id) ||
        decide (a.state = .inProgress)))) = true := hw
    obtain ⟨a, ha, hpred⟩ := List.any_eq_true.mp ((Bool.and_eq_true ..).mp hw').1
    have hstate : a.state = .inProgress := by
      have := ((Bool.and_eq_true ..).mp hpred).2
      simpa using this
    have := List.any_eq_false.mp hp a ha
    exact this (by simp [hstate])

theorem updateQueries_mem (id : Nat) (r : DnsResult) (now : Nat) (l : List DnsQuery) :
    ∀ q' ∈ updateQueries id r now l, q' ∈ l ∨
      ∃ tn t0, q' = .completed id tn now r ∧ DnsQuery.in_progress id tn t0 ∈ l := by
  induction l with
  | nil =>
    intro q' h
    simp [updateQueries] at h
  | cons p rest ih =>
    intro q' h
    by_cases hid : p.qid = id
    · simp only [updateQueries, if_pos hid] at h
      rcases p with ⟨i2, tn, t⟩ | ⟨i2, tn, c, r0⟩
      · have h' : q' = DnsQuery.completed id tn now r ∨ q' ∈ rest := List.mem_cons.mp h
        rcases h' with rfl | h'
        · have hi2 : i2 = id := hid
          subst hi2
          exact Or.inr ⟨tn, t, rfl, List.mem_cons_self _ _⟩
        · exact Or.inl (List.mem_cons_of_mem _ h')
      · have h' : q' = DnsQuery.completed i2 tn c r0 ∨ q' ∈ rest := List.mem_cons.mp h
        rcases h' with rfl | h'
        · exact Or.inl (List.mem_cons_self _ _)
        · exact Or.inl (List.mem_cons_of_mem _ h')
    · simp only [updateQueries, if_neg hid] at h
      have h' : q' = p ∨ q' ∈ updateQueries id r now rest := List.mem_cons.mp h
      rcases h' with rfl | h'
      · exact Or.inl (List.mem_cons_self _ _)
      · rcases ih q' h' with hm | ⟨tn, t0, he, hm⟩
        · exact Or.inl (List.mem_cons_of_mem _ hm)
        · exact Or.inr ⟨tn, t0, he, List.mem_cons_of_mem _ hm⟩

theorem inv_input (s : State) (i : Input) (now : Nat) (hw : wfInput s i = true)
    (hinv : StateInv s) : StateInv (s.process_input i now) := by
  cases i with
  | connectionResult id r =>
    unfold StateInv at hinv ⊢
    rw [process_input_host, process_input_conn_queries]
    exact hinv
  | dnsResult id r =>
    have hw' : ((s.dns_queries.any (fun q =>
        decide (q.qid = id) && q.is_in_progress && decide (q.record_type = r.record_type))) &&
      (s.dns_queries.all (fun q => !decide (q.qid = id) ||
        (q.is_in_progress && decide (q.record_type = r.record_type))))) = true := hw
    have hall := ((Bool.and_eq_true ..).mp hw').2
    unfold StateInv at hinv ⊢
    rw [process_input_host]
    rcases hh : s.host with d | a4 | a6
    · rw [hh] at hinv
      intro q' hq' ht
      have hq'' : q' ∈ updateQueries id r now s.dns_queries := hq'
      rcases updateQueries_mem id r now s.dns_queries q' hq'' with hm | ⟨tn, t0, he, hm⟩
      · exact hinv q' hm ht
      · subst he
        have hmatch := List.all_eq_true.mp hall _ hm
        have htype : t0 = r.record_type := by
          have h1 : (!decide ((DnsQuery.in_progress id tn t0).qid = id) ||
              ((DnsQuery.in_progress id tn t0).is_in_progress &&
                decide ((DnsQuery.in_progress id tn t0).record_type = r.record_type))) = true :=
            hmatch
          simp only [DnsQuery.qid, DnsQuery.is_in_progress, DnsQuery.record_type,
            decide_eq_true_eq, Bool.true_and] at h1
          simpa using h1
        have hrt : r.record_type = DnsRecordType.https := by
          simpa [DnsQuery.record_type] using ht
        have ht0 : t0 = DnsRecordType.https := by rw [htype, hrt]
        subst ht0
        have := hinv _ hm (by simp [DnsQuery.record_type, hrt])
        simpa [DnsQuery.target_name] using this
    · rw [hh] at hinv
      show updateQueries id r now s.dns_queries = []
      rw [hinv]
      rfl
    · rw [hh] at hinv
      show updateQueries id r now s.dns_queries = []
      rw [hinv]
      rfl

/-- A terminal state: the output `t` is the terminal verdict that the engine
has reached, and the state properties guaranteeing it are frozen. -/
def TermState (pick : PickFn) (s : State) (t : Output) : Prop :=
  (t = Output.succeeded ∧ s.has_successful_connection = true ∧
    s.has_pending_connections = false) ∨
  (t = Output.failed ∧ FailCore pick s)

theorem term_step (pick : PickFn) (s : State) (t : Output) (e : Event)
    (hts : TermState pick s t) (hw : wfEvent s e = true) :
    TermState pick (stepEvent pick s e).1 t ∧
      ((stepEvent pick s e).2 = none ∨ (stepEvent pick s e).2 = some t) ∧
      (∀ now, e = Event.call now → (stepEvent pick s e).2 = some t) := by
  rcases hts with ⟨ht, hs, hp⟩ | ⟨ht, hcore⟩
  · cases e with
    | input i n =>
      have hw' : wfInput s i = true := hw
      obtain ⟨h1, h2⟩ := succ_input s i n hw' hs hp
      exact ⟨Or.inl ⟨ht, h1, h2⟩, Or.inl rfl, fun now he => by cases he⟩
    | call n =>
      subst ht
      have hout := succ_frozen_out pick s n hs hp
      refine ⟨?_, ?_, ?_⟩
      · show TermState pick (s.process_output pick n).1 Output.succeeded
        rw [hout]
        exact Or.inl ⟨rfl, hs, hp⟩
      · right
        show (s.process_output pick n).2 = some Output.succeeded
        rw [hout]
      · intro now _
        show (s.process_output pick n).2 = some Output.succeeded
        rw [hout]
  · cases e with
    | input i n =>
      exfalso
      have hzero := fail_no_input s hcore.2.1 hcore.2.2.1 i
      have hw' : wfInput s i = true := hw
      rw [hzero] at hw'
      cases hw'
    | call n =>
      subst ht
      have hout := fail_frozen pick s hcore n
      refine ⟨?_, ?_, ?_⟩
      · show TermState pick (s.process_output pick n).1 Output.failed
        rw [hout]
        exact Or.inr ⟨rfl, hcore⟩
      · right
        show (s.process_output pick n).2 = some Output.failed
        rw [hout]
      · intro now _
        show (s.process_output pick n).2 = some Output.failed
        rw [hout]

theorem term_run (pick : PickFn) (evs : List Event) : ∀ (s : State) (t : Output),
    TermState pick s t → wfTrace pick s evs = true →
    ∀ j oj, (runTrace pick s evs).2.get? j = some oj →
      (oj = none ∨ oj = some t) ∧
      (∀ now, evs.get? j = some (Event.call now) → oj = some t) := by
  induction evs with
  | nil =>
    intro s t _ _ j oj hj
    simp [runTrace] at hj
  | cons e rest ih =>
    intro s t hts hwf j oj hj
    have hrun : (runTrace pick s (e :: rest)).2 =
        (stepEvent pick s e).2 :: (runTrace pick (stepEvent pick s e).1 rest).2 := by
      simp [runTrace]
    have hwfe : wfEvent s e = true ∧
        wfTrace pick (stepEvent pick s e).1 rest = true := by
      have h0 : wfTrace pick s (e :: rest) =
          (wfEvent s e && wfTrace pick (stepEvent pick s e).1 rest) := rfl
      rw [h0] at hwf
      exact (Bool.and_eq_true ..).mp hwf
    obtain ⟨hterm', hout, hcall⟩ := term_step pick s t e hts hwfe.1
    rw [hrun] at hj
    cases j with
    | zero =>
      have hoj : oj = (stepEvent pick s e).2 := by
        have : some ((stepEvent pick s e).2) = some oj := hj
        exact (Option.some.injEq .. ▸ this).symm
      subst hoj
      refine ⟨hout, ?_⟩
      intro now he
      have he' : e = Event.call now := by
        have : some e = some (Event.call now) := he
        exact Option.some.injEq .. ▸ this
      exact hcall now he'
    | succ j' =>
      have hj' : (runTrace pick (stepEvent pick s e).1 rest).2.get? j' = some oj := hj
      obtain ⟨hA, hB⟩ := ih (stepEvent pick s e).1 t hterm' hwfe.2 j' oj hj'
      exact ⟨hA, fun now he => hB now he⟩

theorem emission_term (pick : PickFn) (s : State) (now : Nat) (s' : State) (t : Output)
    (hinv : StateInv s)
    (hterm : t = Output.succeeded ∨ t = Output.failed)
    (h : s.process_output pick now = (s', some t)) :
    s' = s ∧ TermState pick s t := by
  rcases hterm with rfl | rfl
  · obtain ⟨h1, h2, h3⟩ := po_succ_emit pick s now s' h
    exact ⟨h1, Or.inl ⟨rfl, h2, h3⟩⟩
  · obtain ⟨h1, h2⟩ := failed_emission pick s now s' hinv h
    exact ⟨h1, Or.inr ⟨rfl, h2⟩⟩

theorem after_terminal (pick : PickFn) (evs : List Event) : ∀ (s : State),
    StateInv s → wfTrace pick s evs = true →
    ∀ i t, (runTrace pick s evs).2.get? i = some (some t) →
      (t = Output.succeeded ∨ t = Output.failed) →
      ∀ j oj, i < j → (runTrace pick s evs).2.get? j = some oj →
        (oj = none ∨ oj = some t) ∧
        (∀ now, evs.get? j = some (Event.call now) → oj = some t) := by
  induction evs with
  | nil =>
    intro s _ _ i t hi _ j oj _ _
    simp [runTrace] at hi
  | cons e rest ih =>
    intro s hinv hwf i t hi hterm j oj hij hj
    have hrun : (runTrace pick s (e :: rest)).2 =
        (stepEvent pick s e).2 :: (runTrace pick (stepEvent pick s e).1 rest).2 := by
      simp [runTrace]
    have hwfe : wfEvent s e = true ∧
        wfTrace pick (stepEvent pick s e).1 rest = true := by
      have h0 : wfTrace pick s (e :: rest) =
          (wfEvent s e && wfTrace pick (stepEvent pick s e).1 rest) := rfl
      rw [h0] at hwf
      exact (Bool.and_eq_true ..).mp hwf
    rw [hrun] at hi hj
    cases i with
    | zero =>
      have hstep : (stepEvent pick s e).2 = some t := by
        have : some ((stepEvent pick s e).2) = some (some t) := hi
        exact Option.some.injEq .. ▸ this
      cases e with
      | input i2 n =>
        exfalso
        have : (none : Option Output) = some t := hstep
        cases this
      | call n =>
        rcases hpo : s.process_output pick n with ⟨s1, o1⟩
        have ho1 : o1 = some t := by
          have h2 : (s.process_output pick n).2 = some t := hstep
          rw [hpo] at h2
          exact h2
        subst ho1
        obtain ⟨hs1, hts⟩ := emission_term pick s n s1 t hinv hterm hpo
        cases j with
        | zero => exact absurd hij (by omega)
        | succ j' =>
          have hj' : (runTrace pick (stepEvent pick s (Event.call n)).1 rest).2.get? j'
              = some oj := hj
          have hstate : (stepEvent pick s (Event.call n)).1 = s := by
            show (s.process_output pick n).1 = s
            rw [hpo]
            exact hs1
          have hts' : TermState pick (stepEvent pick s (Event.call n)).1 t := by
            rw [hstate]
            exact hts
          obtain ⟨hA, hB⟩ := term_run pick rest (stepEvent pick s (Event.call n)).1 t
            hts' hwfe.2 j' oj hj'
          exact ⟨hA, fun now he => hB now he⟩
    | succ i' =>
      cases j with
      | zero => exact absurd hij (by omega)
      | succ j' =>
        have hi' : (runTrace pick (stepEvent pick s e).1 rest).2.get? i'
            = some (some t) := hi
        have hj' : (runTrace pick (stepEvent pick s e).1 rest).2.get? j' = some oj := hj
        have hinv' : StateInv (stepEvent pick s e).1 := by
          cases e with
          | input i2 n =>
            have hw' : wfInput s i2 = true := hwfe.1
            exact inv_input s i2 n hw' hinv
          | call n => exact inv_po pick s n hinv
        obtain ⟨hA, hB⟩ := ih (stepEvent pick s e).1 hinv' hwfe.2 i' t hi' hterm j' oj
          (by omega) hj'
        exact ⟨hA, fun now he => hB now he⟩

/-- **C1.** For every well-formed input/call sequence: once the attempt ledger
contains a `Succeeded` attempt, every subsequent `process_output` call returns
either `CancelConnection` for some remaining `InProgress` attempt or, once none
remain, `Succeeded`; across the engine's lifetime at most one of the two
terminal outputs (`Succeeded`, `Failed`) is ever emitted, the same terminal is
re-emitted on repeated calls, and no `AttemptConnection` or `SendDnsQuery` is
emitted after the first terminal output. -/
theorem he_c1 (pick : PickFn) :
    (∀ (s : State) (now : Nat), s.has_successful_connection = true →
      (s.has_pending_connections = true →
        ∃ a ∈ s.connection_attempts, a.state = ConnectionState.inProgress ∧
          (s.process_output pick now).2 =
            some (Output.cancelConnection a.endpoint.address)) ∧
      (s.has_pending_connections = false →
        (s.process_output pick now).2 = some Output.succeeded)) ∧
    (∀ (h : Host) (p : Nat) (c : NetworkConfig) (evs : List Event),
      wfTrace pick (mkState h p c) evs = true →
      ∀ (i : Nat) (t : Output),
        (runTrace pick (mkState h p c) evs).2.get? i = some (some t) →
        (t = Output.succeeded ∨ t = Output.failed) →
        ∀ (j : Nat) (oj : Option Output), i < j →
          (runTrace pick (mkState h p c) evs).2.get? j = some oj →
          (oj = none ∨ oj = some t) ∧
          (∀ (t' : Output), (t' = Output.succeeded ∨ t' = Output.failed) →
            oj = some t' → t' = t) ∧
          (∀ (now : Nat), evs.get? j = some (Event.call now) → oj = some t) ∧
          (∀ (id : Nat) (ep : Endpoint),
            oj ≠ some (Output.attemptConnection id ep)) ∧
          (∀ (id : Nat) (hn : String) (rt : DnsRecordType),
            oj ≠ some (Output.sendDnsQuery id hn rt))) := by
  constructor
  · intro s now hs
    constructor
    · intro hp
      obtain ⟨a, ha, hstate, hout⟩ := cancel_pendC s hs hp
      refine ⟨a, ha, hstate, ?_⟩
      rw [po_of_hasSucc pick s now hs]
      exact hout
    · intro hp
      rw [succ_frozen_out pick s now hs hp]
  · intro h p c evs hwf i t hi hterm j oj hij hj
    obtain ⟨hA, hB⟩ := after_terminal pick evs (mkState h p c) (inv_mk h p c) hwf
      i t hi hterm j oj hij hj
    refine ⟨hA, ?_, hB, ?_, ?_⟩
    · intro t' _ ho
      rcases hA with h0 | h0
      · rw [h0] at ho
        cases ho
      · rw [h0] at ho
        exact (Option.some.injEq .. ▸ ho).symm
    · intro id ep hcontra
      rcases hA with h0 | h0
      · rw [h0] at hcontra
        cases hcontra
      · rw [h0] at hcontra
        have ht' : t = Output.attemptConnection id ep := Option.some.injEq .. ▸ hcontra
        rcases hterm with rfl | rfl <;> cases ht'
    · intro id hn rt hcontra
      rcases hA with h0 | h0
      · rw [h0] at hcontra
        cases hcontra
      · rw [h0] at hcontra
        have ht' : t = Output.sendDnsQuery id hn rt := Option.some.injEq .. ▸ hcontra
        rcases hterm with rfl | rfl <;> cases ht'

def cfg1 : NetworkConfig := ⟨⟨false, false, false⟩, .dualStackPreferV6, []⟩

def sSucc : State :=
  { exDomain with
    connection_attempts := [⟨0, ⟨⟨.v4 1, 443⟩, .h2OrH1, none⟩, 0, .succeeded⟩] }

theorem he_c1_witness :
    (sSucc.process_output pickHead 5).2 = some Output.succeeded ∧
    ((some Output.failed : Option Output) = none ∨
      (some Output.failed : Option Output) = some Output.failed) := by
  have h := he_c1 pickHead
  constructor
  · exact (h.1 sSucc 5 (by decide)).2 (by decide)
  · exact (h.2 (.ipv4 7) 443 cfg1 [.call 0, .call 0] (by decide) 0 Output.failed
      (by decide) (Or.inr rfl) 1 (some Output.failed) (by decide) (by decide)).1
